import Mathlib

/-
Verification of the cocofs disk-image filesystem engine (src/cocofs.c).

The in-memory filesystem state (struct cocofs) is embedded as a structure of
views over the single image buffer: the 256-byte granule-map sector is the
function granule_map (the C code indexes it with a uint8_t, so reads up to
index 255 stay inside that sector), the 72 directory slots are the function
directory, and the data-area bytes are image_data, addressed by the absolute
image offset exactly as the C code computes it with cocofs_granule_to_offset.
The split of the single C buffer into these three views is sound because
cocofs_granule_to_track never yields the directory track 17 (lemma
cocofs_granule_to_offset_eq below shows data offsets are 2304-aligned slots
that skip the metadata track), so the data region written by copyin/copyout
is disjoint from the granule map and the directory.

Machine integers: granule numbers and map bytes are uint8_t in C and are
modelled as Nat (the code only ever produces values below 256); the
free-granule counter is an unsigned int, so its increments and decrements
are taken modulo 2^32.

Loops are embedded as fuel-indexed recursions.  Where the C loop carries an
explicit iteration bound (cocofs_stat and cocofs_galloc run for at most
COCOFS_NGRANULES + 1 = 69 iterations) the fuel is exactly that bound, so
exhausting the fuel is the same event as the C loop condition failing.
Where the C loop is unbounded (cocofs_rm, cocofs_copyout) the recursion
returns a distinguished spin value when the fuel runs out; proving that a
result is spin for every fuel amount proves that the C loop never exits.

The source file opens and fstats the copyin source before mutating anything;
those two failure modes touch no state and are not modelled.  A source file
is modelled as its fstat size together with the byte sequence that reads
actually deliver, so a short read (the failure mode the spec names) is a
data list shorter than the declared size.
-/

namespace CocofsModel

/-- Geometry constants from cocofs.c. -/
def COCOFS_TRACKS : Nat := 35

def COCOFS_SEC_PER_TRACK : Nat := 18

def COCOFS_SEC_PER_GRANULE : Nat := 9

def COCOFS_BYTES_PER_SEC : Nat := 256

def COCOFS_BYTES_PER_GRANULE : Nat := COCOFS_SEC_PER_GRANULE * COCOFS_BYTES_PER_SEC

def COCOFS_DIR_TRACK : Nat := 17

def COCOFS_GRANULES_PER_TRACK : Nat := COCOFS_SEC_PER_TRACK / COCOFS_SEC_PER_GRANULE

def COCOFS_NGRANULES : Nat := (COCOFS_TRACKS - 1) * COCOFS_GRANULES_PER_TRACK

def GMAP_FREE : Nat := 0xff

def GMAP_ALLOCATED : Nat := 0xfe

def GMAP_LAST : Nat := 0xc0

def COCOFS_DIR_TRACK_NENTRIES : Nat := 72

/-- cocofs_track_to_offset from cocofs.c. -/
def cocofs_track_to_offset (track : Nat) : Nat :=
  track * (COCOFS_SEC_PER_TRACK * COCOFS_BYTES_PER_SEC)

/-- cocofs_sector_to_offset from cocofs.c (sectors are 1-based). -/
def cocofs_sector_to_offset (sector : Nat) : Nat :=
  (sector - 1) * COCOFS_BYTES_PER_SEC

/-- cocofs_granule_to_track from cocofs.c. -/
def cocofs_granule_to_track (granule : Nat) : Nat :=
  let track := granule / COCOFS_GRANULES_PER_TRACK
  if track ≥ COCOFS_DIR_TRACK then track + 1 else track

/-- cocofs_granule_to_offset from cocofs.c. -/
def cocofs_granule_to_offset (granule : Nat) : Nat :=
  let offset := cocofs_track_to_offset (cocofs_granule_to_track granule)
  if granule % 2 = 1 then offset + COCOFS_BYTES_PER_GRANULE else offset

/-- gmap_entry_is_valid from cocofs.c, byte for byte:
v less-or-equal COCOFS_NGRANULES, or in 0xc0..0xc9, or equal to GMAP_FREE. -/
def gmap_entry_is_valid (v : Nat) : Bool :=
  (v ≤ COCOFS_NGRANULES) || (v ≥ 0xc0 && v ≤ 0xc9) || (v == GMAP_FREE)

/-- GMAP_IS_LAST macro from cocofs.c. -/
def GMAP_IS_LAST (v : Nat) : Bool :=
  v &&& GMAP_LAST == GMAP_LAST

/-- GMAP_LAST_NSEC macro from cocofs.c. -/
def GMAP_LAST_NSEC (v : Nat) : Nat :=
  v &&& 0x0f

/-- struct cocofs_dirent: the 32-byte directory slot, field by field.
d_last_bytes is kept as its two big-endian bytes, and the 16 unused
trailing bytes are kept so that slots compare byte for byte. -/
structure Dirent where
  d_name : List Nat
  d_ext : List Nat
  d_type : Nat
  d_encoding : Nat
  d_first_granule : Nat
  d_last_bytes0 : Nat
  d_last_bytes1 : Nat
  d_unused : List Nat
deriving DecidableEq, Repr

/-- The all-0xff pattern a directory slot is reset to by memset(dir, 0xff). -/
def freeDirent : Dirent :=
  { d_name := List.replicate 8 0xff
    d_ext := List.replicate 3 0xff
    d_type := 0xff
    d_encoding := 0xff
    d_first_granule := 0xff
    d_last_bytes0 := 0xff
    d_last_bytes1 := 0xff
    d_unused := List.replicate 16 0xff }

/-- struct cocofs: granule-map sector bytes, directory slots, data-area
bytes by absolute image offset, and the free-granule counter. -/
structure Cocofs where
  granule_map : Nat → Nat
  directory : Nat → Dirent
  image_data : Nat → Nat
  free_granules : Nat

/-- Pointwise function update, used for single-byte stores. -/
def updFn (f : Nat → Nat) (i v : Nat) : Nat → Nat :=
  fun j => if j = i then v else f j

/-- Pointwise directory-slot update. -/
def updDir (d : Nat → Dirent) (i : Nat) (e : Dirent) : Nat → Dirent :=
  fun j => if j = i then e else d j

/-- cocofs_format: the whole image is set to 0xff and the counter to 68. -/
def cocofs_format : Cocofs :=
  { granule_map := fun _ => 0xff
    directory := fun _ => freeDirent
    image_data := fun _ => 0xff
    free_granules := COCOFS_NGRANULES }

/-- cocofs_dir_lastbytes from cocofs.c: big-endian 16-bit read. -/
def cocofs_dir_lastbytes (b0 b1 : Nat) : Nat :=
  (b0 <<< 8) ||| b1

/-- The loop of cocofs_stat.  The C loop runs while loopcnt is at most
COCOFS_NGRANULES, so for at most 69 iterations; the fuel is exactly that
bound and fuel 0 is the loop condition failing (last_nsec still 0). -/
def statGo (fs : Cocofs) : Nat → Nat → Nat → Nat × Nat
  | 0, _, size => (size, 0)
  | fuel + 1, g, size =>
    let gn := fs.granule_map g
    if !(gmap_entry_is_valid gn) || gn == GMAP_FREE then
      (size, 0)
    else if GMAP_IS_LAST gn then
      (size, GMAP_LAST_NSEC gn)
    else
      statGo fs fuel gn (size + COCOFS_SEC_PER_GRANULE * COCOFS_BYTES_PER_SEC)

/-- The size computation of cocofs_stat (the name/type/encoding copying of
the C function carries no logic and is omitted). -/
def cocofs_stat_size (fs : Cocofs) (dir : Dirent) : Nat :=
  let r := statGo fs (COCOFS_NGRANULES + 1) dir.d_first_granule 0
  let size := r.1
  let last_nsec := r.2
  if last_nsec ≠ 0 then
    let lastsec_bytes := cocofs_dir_lastbytes dir.d_last_bytes0 dir.d_last_bytes1
    let lastsec_bytes :=
      if lastsec_bytes > COCOFS_BYTES_PER_SEC then COCOFS_BYTES_PER_SEC
      else lastsec_bytes
    size + last_nsec * COCOFS_BYTES_PER_SEC - (COCOFS_BYTES_PER_SEC - lastsec_bytes)
  else
    size

/-- Bytes of the image starting at an offset. -/
def readBytes (img : Nat → Nat) : Nat → Nat → List Nat
  | _, 0 => []
  | off, n + 1 => img off :: readBytes img (off + 1) n

/-- Result of cocofs_copyout: the bytes written to the output file, an
error return, or spin, meaning the C loop is still running after the
given amount of fuel (the C loop itself has no bound). -/
inductive CopyoutRes where
  | ok (bytes : List Nat)
  | err
  | spin
deriving DecidableEq, Repr

/-- The granule-chasing loop of cocofs_copyout.  Faithful to the C code,
loopcnt is threaded through but never incremented, so the cycle check
loopcnt is-greater-than COCOFS_NGRANULES can never fire. -/
def copyoutGo (fs : Cocofs) (dir : Dirent) : Nat → Nat → Nat → List Nat → CopyoutRes
  | 0, _, _, _ => .spin
  | fuel + 1, loopcnt, g, acc =>
    if loopcnt > COCOFS_NGRANULES then .err
    else if g ≥ COCOFS_NGRANULES then .err
    else
      let gn := fs.granule_map g
      if !(gmap_entry_is_valid gn) || gn == GMAP_FREE then .err
      else if GMAP_IS_LAST gn then
        let last_nsec := GMAP_LAST_NSEC gn
        if last_nsec < 1 || last_nsec > COCOFS_SEC_PER_GRANULE then .err
        else
          let last_nbytes := cocofs_dir_lastbytes dir.d_last_bytes0 dir.d_last_bytes1
          let last_nbytes :=
            if last_nbytes > COCOFS_BYTES_PER_SEC then COCOFS_BYTES_PER_SEC
            else last_nbytes
          let last_nbytes :=
            last_nsec * COCOFS_BYTES_PER_SEC - (COCOFS_BYTES_PER_SEC - last_nbytes)
          .ok (acc ++ readBytes fs.image_data (cocofs_granule_to_offset g) last_nbytes)
      else
        copyoutGo fs dir fuel loopcnt gn
          (acc ++ readBytes fs.image_data (cocofs_granule_to_offset g)
            COCOFS_BYTES_PER_GRANULE)

/-- cocofs_copyout, relative to a fuel amount for its unbounded loop. -/
def cocofs_copyout (fs : Cocofs) (dir : Dirent) (fuel : Nat) : CopyoutRes :=
  copyoutGo fs dir fuel 0 dir.d_first_granule []

/-- Result of cocofs_rm: done carries the C return value and the state
(which on a false return keeps whatever was already freed); spin means the
loop is still running after the given fuel. -/
inductive RmRes where
  | done (ok : Bool) (fs : Cocofs)
  | spin

/-- True on a done-false result. -/
def RmRes.isErr : RmRes → Bool
  | .done false _ => true
  | _ => false

/-- True on a done-true result. -/
def RmRes.isOk : RmRes → Bool
  | .done true _ => true
  | _ => false

/-- The state of a done result (junk for spin). -/
def RmRes.state : RmRes → Cocofs
  | .done _ fs => fs
  | .spin => cocofs_format

/-- The loop of cocofs_rm.  The C loop is unbounded; each iteration either
returns or frees one non-free granule, which is why 69 units of fuel always
suffice (lemma rmGo_no_spin below). -/
def rmGo (slot : Nat) : Nat → Cocofs → Nat → RmRes
  | 0, _, _ => .spin
  | fuel + 1, fs, g =>
    if g ≥ COCOFS_NGRANULES then .done false fs
    else
      let gn := fs.granule_map g
      if !(gmap_entry_is_valid gn) || gn == GMAP_FREE then .done false fs
      else
        let fs' : Cocofs :=
          { fs with granule_map := updFn fs.granule_map g GMAP_FREE
                    free_granules := (fs.free_granules + 1) % 2 ^ 32 }
        if GMAP_IS_LAST gn then
          .done true { fs' with directory := updDir fs'.directory slot freeDirent }
        else
          rmGo slot fuel fs' gn

/-- cocofs_rm on the directory slot holding the file.  Fuel 69 is enough
for every state (rmGo_no_spin), so this is the total C function. -/
def cocofs_rm (fs : Cocofs) (slot : Nat) : RmRes :=
  rmGo slot (COCOFS_NGRANULES + 1) fs (fs.directory slot).d_first_granule

/-- The scan loop of cocofs_galloc: at most 69 probes (loopcnt runs 0..68);
none is the abort() after the loop. -/
def gallocGo (m : Nat → Nat) : Nat → Nat → Option Nat
  | 0, _ => none
  | fuel + 1, g =>
    if m g == GMAP_FREE then some g
    else
      let next := g + 1
      let next := if next = COCOFS_NGRANULES then 0 else next
      gallocGo m fuel next

/-- cocofs_galloc: find a free granule starting at last, mark it
GMAP_ALLOCATED and decrement the free counter (unsigned int decrement). -/
def cocofs_galloc (fs : Cocofs) (last : Nat) : Option (Nat × Cocofs) :=
  match gallocGo fs.granule_map (COCOFS_NGRANULES + 1) last with
  | none => none
  | some g =>
    some (g,
      { fs with granule_map := updFn fs.granule_map g GMAP_ALLOCATED
                free_granules := (fs.free_granules + (2 ^ 32 - 1)) % 2 ^ 32 })

/-- The allocation loop of cocofs_copyin: granules_needed calls to
cocofs_galloc, each resuming from the granule just allocated; none means
some call hit the abort() path. -/
def allocGo : Nat → Cocofs → Nat → Option (List Nat × Cocofs)
  | 0, fs, _ => some ([], fs)
  | n + 1, fs, last =>
    match cocofs_galloc fs last with
    | none => none
    | some (g, fs') =>
      match allocGo n fs' g with
      | none => none
      | some (gl, fs'') => some (g :: gl, fs'')

/-- The copyin source: the size fstat reports and the bytes reads actually
deliver.  A read of cursz bytes at offset off transfers
min cursz (data.length - off) bytes, exactly the POSIX short-read rule;
copyin treats any short read as failure. -/
structure SrcFile where
  size : Nat
  data : List Nat

/-- The reason a cocofs_copyin failed, matching the three error paths of
the C function that reach the rollback label. -/
inductive CopyinErr where
  | noSpace
  | dirFull
  | readShort
deriving DecidableEq, Repr

/-- Result of cocofs_copyin.  aborted is the abort() inside cocofs_galloc
(the process dies, no state survives). -/
inductive CopyinRes where
  | success (fs : Cocofs)
  | failure (e : CopyinErr) (fs : Cocofs)
  | aborted

/-- True on a success result. -/
def CopyinRes.isSuccess : CopyinRes → Bool
  | .success _ => true
  | _ => false

/-- True on any failure result. -/
def CopyinRes.isFailure : CopyinRes → Bool
  | .failure _ _ => true
  | _ => false

/-- True exactly on the capacity-error (ENOSPC) failure. -/
def CopyinRes.isNoSpace : CopyinRes → Bool
  | .failure .noSpace _ => true
  | _ => false

/-- The state carried by a success or failure result (junk for aborted). -/
def CopyinRes.state : CopyinRes → Cocofs
  | .success fs => fs
  | .failure _ fs => fs
  | .aborted => cocofs_format

/-- Store a list of bytes into the image at an offset (memcpy into the
granule data area). -/
def writeBytes (img : Nat → Nat) (off : Nat) (bs : List Nat) : Nat → Nat :=
  fun j => if off ≤ j ∧ j < off + bs.length then bs.getD (j - off) 0 else img j

/-- Zero a byte range of the image (the memset of the granule tail). -/
def zeroRange (img : Nat → Nat) (off n : Nat) : Nat → Nat :=
  fun j => if off ≤ j ∧ j < off + n then 0 else img j

/-- The bad label of cocofs_copyin: memset the claimed directory slot (when
one was claimed) and memcpy the 68 saved granule-map bytes and the saved
counter back. -/
def copyinBad (fs : Cocofs) (origMap : Nat → Nat) (origFree : Nat)
    (slot : Option Nat) : Cocofs :=
  let fs1 :=
    match slot with
    | some i => { fs with directory := updDir fs.directory i freeDirent }
    | none => fs
  { fs1 with
      granule_map := fun j => if j < COCOFS_NGRANULES then origMap j else fs1.granule_map j
      free_granules := origFree }

/-- The directory entry written by the last-granule branch of cocofs_copyin:
the C code assigns the named fields of the claimed slot and leaves the 16
unused bytes as they were. -/
def copyinEntry (old : Dirent) (name ext : List Nat) (ty enc : Nat)
    (firstGranule lastbytes : Nat) : Dirent :=
  { old with
      d_name := name
      d_ext := ext
      d_type := ty
      d_encoding := enc
      d_first_granule := firstGranule
      d_last_bytes0 := (lastbytes >>> 8) % 256
      d_last_bytes1 := lastbytes % 256 }

/-- The content loop of cocofs_copyin: while resid is nonzero, read the next
chunk at offset gi * 2304 of the source, store it in granule glist[gi], and
set that granule-map entry to the next granule or to the terminal tag.  One
iteration per granule, so the fuel is granules_needed; aborted marks the
unreachable out-of-fuel case. -/
def writeGo (src : SrcFile) (gl : List Nat) (name ext : List Nat) (ty enc : Nat)
    (slot : Nat) : Nat → Nat → Nat → Cocofs → CopyinRes
  | 0, _, resid, fs =>
    if resid = 0 then .success fs else .aborted
  | fuel' + 1, gi, resid, fs =>
    if resid = 0 then .success fs
    else
        let cursz := min resid COCOFS_BYTES_PER_GRANULE
        let g := gl.getD gi 0xff
        let off := cocofs_granule_to_offset g
        let rdoff := gi * COCOFS_BYTES_PER_GRANULE
        let rv := min cursz (src.data.length - rdoff)
        let bytes := (src.data.drop rdoff).take rv
        let fs1 : Cocofs := { fs with image_data := writeBytes fs.image_data off bytes }
        if rv ≠ cursz then .failure .readShort fs1
        else
          if resid ≤ COCOFS_BYTES_PER_GRANULE then
            let nsec := resid / COCOFS_BYTES_PER_SEC +
              (if resid % COCOFS_BYTES_PER_SEC ≠ 0 then 1 else 0)
            let fs2 : Cocofs :=
              { fs1 with granule_map := updFn fs1.granule_map g (GMAP_LAST ||| nsec) }
            let lastbytes :=
              if resid % COCOFS_BYTES_PER_SEC = 0 then COCOFS_BYTES_PER_SEC
              else resid % COCOFS_BYTES_PER_SEC
            let img3 := zeroRange fs2.image_data (off + resid) (COCOFS_BYTES_PER_GRANULE - resid)
            let fs3 : Cocofs := { fs2 with image_data := img3 }
            let newdir := copyinEntry (fs3.directory slot) name ext ty enc (gl.getD 0 0xff) lastbytes
            let fs4 : Cocofs := { fs3 with directory := updDir fs3.directory slot newdir }
            writeGo src gl name ext ty enc slot fuel' (gi + 1) (resid - cursz) fs4
          else
            let fs2 : Cocofs :=
              { fs1 with granule_map := updFn fs1.granule_map g (gl.getD (gi + 1) 0xff) }
            writeGo src gl name ext ty enc slot fuel' (gi + 1) (resid - cursz) fs2

/-- The free-directory-slot scan of cocofs_copyin (and find_free_slot of
the spec): first slot whose type byte is the 0xff sentinel. -/
def findFreeSlotGo (d : Nat → Dirent) : Nat → Nat → Option Nat
  | 0, _ => none
  | n + 1, i =>
    if (d i).d_type == 0xff then some i
    else findFreeSlotGo d n (i + 1)

/-- First free directory slot among the 72. -/
def findFreeSlot (d : Nat → Dirent) : Option Nat :=
  findFreeSlotGo d COCOFS_DIR_TRACK_NENTRIES 0

/-- cocofs_copyin, assembled exactly in the order of the C function:
snapshot, capacity check against free_granules * 2304 (computed in a
32-bit unsigned, hence the mod), granules_needed, free-slot scan,
allocation loop from the middle granule 34, content loop, and the
rollback label on every failure path. -/
def cocofs_copyin (fs : Cocofs) (src : SrcFile) (name ext : List Nat)
    (ty enc : Nat) : CopyinRes :=
  let origMap := fs.granule_map
  let origFree := fs.free_granules
  if src.size > (origFree * COCOFS_BYTES_PER_GRANULE) % 2 ^ 32 then
    .failure .noSpace (copyinBad fs origMap origFree none)
  else
    let granules_needed := src.size / COCOFS_BYTES_PER_GRANULE +
      (if src.size % COCOFS_BYTES_PER_GRANULE ≠ 0 then 1 else 0)
    match findFreeSlot fs.directory with
    | none => .failure .dirFull (copyinBad fs origMap origFree none)
    | some slot =>
      match allocGo granules_needed fs (COCOFS_NGRANULES / 2) with
      | none => .aborted
      | some (gl, fsA) =>
        match writeGo src gl name ext ty enc slot granules_needed 0 src.size fsA with
        | .success f => .success f
        | .failure e f => .failure e (copyinBad f origMap origFree (some slot))
        | .aborted => .aborted

/-- The slot scan of cocofs_lookup_raw: skip slots whose type byte is the
0xff free sentinel, then compare the 8 name bytes and the 3 extension
bytes; first match wins. -/
def lookupGo (d : Nat → Dirent) (name ext : List Nat) : Nat → Nat → Option Nat
  | 0, _ => none
  | n + 1, i =>
    if (d i).d_type == 0xff then lookupGo d name ext n (i + 1)
    else if !((d i).d_name == name) then lookupGo d name ext n (i + 1)
    else if !((d i).d_ext == ext) then lookupGo d name ext n (i + 1)
    else some i

/-- cocofs_lookup_raw over the 72 slots. -/
def cocofs_lookup_raw (d : Nat → Dirent) (name ext : List Nat) : Option Nat :=
  lookupGo d name ext COCOFS_DIR_TRACK_NENTRIES 0

/-- The slot filter of cocofs_enumerate_directory: a slot is listed as a
file exactly when its type byte is at most COCOFS_DIRENT_TYPE_TEXT. -/
def enumerate_slot_is_file (e : Dirent) : Bool :=
  !(e.d_type > 0x03)

/-! Basic lemmas about the helpers. -/

set_option maxRecDepth 20000

theorem updFn_same (f : Nat → Nat) (i v : Nat) : updFn f i v i = v := by
  simp [updFn]

theorem updFn_ne (f : Nat → Nat) {i j : Nat} (v : Nat) (h : j ≠ i) :
    updFn f i v j = f j := by
  simp [updFn, h]

theorem updDir_same (d : Nat → Dirent) (i : Nat) (e : Dirent) : updDir d i e i = e := by
  simp [updDir]

theorem updDir_ne (d : Nat → Dirent) {i j : Nat} (e : Dirent) (h : j ≠ i) :
    updDir d i e j = d j := by
  simp [updDir, h]

theorem writeBytes_in (img : Nat → Nat) (off : Nat) (bs : List Nat) {j : Nat}
    (h1 : off ≤ j) (h2 : j < off + bs.length) :
    writeBytes img off bs j = bs.getD (j - off) 0 := by
  simp [writeBytes, h1, h2]

theorem writeBytes_out (img : Nat → Nat) (off : Nat) (bs : List Nat) {j : Nat}
    (h : j < off ∨ off + bs.length ≤ j) :
    writeBytes img off bs j = img j := by
  simp only [writeBytes]
  split
  · omega
  · rfl

theorem zeroRange_in (img : Nat → Nat) (off n : Nat) {j : Nat}
    (h1 : off ≤ j) (h2 : j < off + n) : zeroRange img off n j = 0 := by
  simp [zeroRange, h1, h2]

theorem zeroRange_out (img : Nat → Nat) (off n : Nat) {j : Nat}
    (h : j < off ∨ off + n ≤ j) : zeroRange img off n j = img j := by
  simp only [zeroRange]
  split
  · omega
  · rfl

theorem gmap_valid_of_le (v : Nat) (h : v ≤ 68) : gmap_entry_is_valid v = true := by
  simp [gmap_entry_is_valid, COCOFS_NGRANULES, COCOFS_TRACKS, COCOFS_GRANULES_PER_TRACK,
    COCOFS_SEC_PER_TRACK, COCOFS_SEC_PER_GRANULE]
  omega

theorem GMAP_IS_LAST_of_lt (v : Nat) (h : v < 192) : GMAP_IS_LAST v = false := by
  have hd : ∀ w, w < 192 → (w &&& 192 == 192) = false := by decide
  simpa [GMAP_IS_LAST, GMAP_LAST] using hd v h

theorem lor_c0_eq_add (n : Nat) (h : n < 16) : GMAP_LAST ||| n = 192 + n := by
  have hd : ∀ m, m < 16 → 192 ||| m = 192 + m := by decide
  simpa [GMAP_LAST] using hd n h

theorem GMAP_IS_LAST_terminal (n : Nat) (h : n < 16) :
    GMAP_IS_LAST (GMAP_LAST ||| n) = true := by
  have hd : ∀ m, m < 16 → ((192 ||| m) &&& 192 == 192) = true := by decide
  simpa [GMAP_IS_LAST, GMAP_LAST] using hd n h

theorem GMAP_LAST_NSEC_terminal (n : Nat) (h : n < 16) :
    GMAP_LAST_NSEC (GMAP_LAST ||| n) = n := by
  have hd : ∀ m, m < 16 → ((192 ||| m) &&& 15) = m := by decide
  simpa [GMAP_LAST_NSEC, GMAP_LAST] using hd n h

theorem gmap_valid_terminal (n : Nat) (h : n ≤ 9) :
    gmap_entry_is_valid (GMAP_LAST ||| n) = true := by
  rw [lor_c0_eq_add n (by omega)]
  simp [gmap_entry_is_valid]
  omega

theorem terminal_ne_free (n : Nat) (h : n ≤ 9) : GMAP_LAST ||| n ≠ GMAP_FREE := by
  rw [lor_c0_eq_add n (by omega)]
  simp [GMAP_FREE]
  omega

theorem dir_lastbytes_roundtrip (lb : Nat) (h : lb ≤ 256) :
    cocofs_dir_lastbytes ((lb >>> 8) % 256) (lb % 256) = lb := by
  have hd : ∀ m, m < 257 → ((m >>> 8) % 256) <<< 8 ||| (m % 256) = m := by decide
  simpa [cocofs_dir_lastbytes] using hd lb (by omega)

/-- Data offsets are 2304-byte slots: slot g itself, shifted past the
directory track for granules 34 and up. -/
theorem cocofs_granule_to_offset_eq (g : Nat) :
    cocofs_granule_to_offset g =
      COCOFS_BYTES_PER_GRANULE * (g + (if 34 ≤ g then 2 else 0)) := by
  simp only [cocofs_granule_to_offset, cocofs_granule_to_track, cocofs_track_to_offset,
    COCOFS_BYTES_PER_GRANULE, COCOFS_GRANULES_PER_TRACK, COCOFS_SEC_PER_TRACK,
    COCOFS_SEC_PER_GRANULE, COCOFS_BYTES_PER_SEC, COCOFS_DIR_TRACK]
  split_ifs <;> omega

/-- Distinct granules occupy disjoint 2304-byte ranges of the image. -/
theorem granule_ranges_disjoint {g g' : Nat} (hne : g ≠ g') :
    cocofs_granule_to_offset g + COCOFS_BYTES_PER_GRANULE ≤ cocofs_granule_to_offset g' ∨
    cocofs_granule_to_offset g' + COCOFS_BYTES_PER_GRANULE ≤ cocofs_granule_to_offset g := by
  rw [cocofs_granule_to_offset_eq g, cocofs_granule_to_offset_eq g']
  have h1 : COCOFS_BYTES_PER_GRANULE = 2304 := by norm_num [COCOFS_BYTES_PER_GRANULE,
    COCOFS_SEC_PER_GRANULE, COCOFS_BYTES_PER_SEC]
  rw [h1]
  split_ifs <;> omega

theorem readBytes_congr {f g : Nat → Nat} (off : Nat) :
    ∀ n, (∀ j, j < n → f (off + j) = g (off + j)) → readBytes f off n = readBytes g off n := by
  have main : ∀ n off, (∀ j, j < n → f (off + j) = g (off + j)) →
      readBytes f off n = readBytes g off n := by
    intro n
    induction n with
    | zero => intro off _; rfl
    | succ m ih =>
      intro off h
      simp only [readBytes]
      have h0 : f off = g off := by simpa using h 0 (by omega)
      rw [h0, ih (off + 1) (fun j hj => by
        have := h (j + 1) (by omega)
        simpa [Nat.add_assoc, Nat.add_comm 1 j] using this)]
  exact fun n h => main n off h

theorem readBytes_length (f : Nat → Nat) : ∀ n off, (readBytes f off n).length = n := by
  intro n
  induction n with
  | zero => intro off; rfl
  | succ m ih => intro off; simp [readBytes, ih]

/-- When the image holds bytes o, o+1, ... of the list l starting at some
offset, reading n of them back gives the corresponding slice of l. -/
theorem readBytes_eq_slice {f : Nat → Nat} {l : List Nat} :
    ∀ n off o, o + n ≤ l.length → (∀ j, j < n → f (off + j) = l.getD (o + j) 0) →
      readBytes f off n = (l.drop o).take n := by
  intro n
  induction n with
  | zero => intro off o _ _; simp [readBytes]
  | succ m ih =>
    intro off o hlen h
    have ho : o < l.length := by omega
    have hdrop : l.drop o = l[o] :: l.drop (o + 1) := List.drop_eq_getElem_cons ho
    simp only [readBytes, hdrop, List.take_succ_cons]
    have h0 : f off = l[o] := by
      have hx := h 0 (by omega)
      rw [Nat.add_zero, Nat.add_zero, List.getD_eq_getElem l 0 ho] at hx
      exact hx
    have ht : readBytes f (off + 1) m = List.take m (List.drop (o + 1) l) := by
      rw [ih (off + 1) (o + 1) (by omega) (fun j hj => by
        have := h (j + 1) (by omega)
        simpa [Nat.add_assoc, Nat.add_comm 1 j] using this)]
    rw [h0, ht]

theorem COCOFS_NGRANULES_eq : COCOFS_NGRANULES = 68 := rfl

theorem COCOFS_BYTES_PER_GRANULE_eq : COCOFS_BYTES_PER_GRANULE = 2304 := rfl

theorem COCOFS_BYTES_PER_SEC_eq : COCOFS_BYTES_PER_SEC = 256 := rfl

theorem pow32_eq : (2 : Nat) ^ 32 = 4294967296 := by norm_num

/-! Lemmas about the directory scans. -/

theorem findFreeSlotGo_some {d : Nat → Dirent} :
    ∀ n i0 i, findFreeSlotGo d n i0 = some i →
      (d i).d_type = 0xff ∧ i0 ≤ i ∧ i < i0 + n := by
  intro n
  induction n with
  | zero => intro i0 i h; simp [findFreeSlotGo] at h
  | succ m ih =>
    intro i0 i h
    simp only [findFreeSlotGo] at h
    split at h
    · rename_i hb
      cases h
      exact ⟨by simpa using hb, Nat.le_refl _, by omega⟩
    · have := ih (i0 + 1) i h
      exact ⟨this.1, by omega, by omega⟩

theorem findFreeSlotGo_isSome {d : Nat → Dirent} :
    ∀ n i0, (∃ j, i0 ≤ j ∧ j < i0 + n ∧ (d j).d_type = 0xff) →
      (findFreeSlotGo d n i0).isSome = true := by
  intro n
  induction n with
  | zero => intro i0 h; exact absurd h (by rintro ⟨j, h1, h2, _⟩; omega)
  | succ m ih =>
    intro i0 h
    simp only [findFreeSlotGo]
    split
    · rfl
    · rename_i hb
      apply ih (i0 + 1)
      obtain ⟨j, h1, h2, h3⟩ := h
      refine ⟨j, ?_, by omega, h3⟩
      rcases Nat.eq_or_lt_of_le h1 with rfl | hlt
      · simp [h3] at hb
      · omega

/-- The match predicate of cocofs_lookup_raw for a slot: not Free, and the
name and extension bytes equal the arguments. -/
def lookupMatches (d : Nat → Dirent) (name ext : List Nat) (j : Nat) : Prop :=
  (d j).d_type ≠ 0xff ∧ (d j).d_name = name ∧ (d j).d_ext = ext

instance (d : Nat → Dirent) (name ext : List Nat) (j : Nat) :
    Decidable (lookupMatches d name ext j) := by
  unfold lookupMatches
  infer_instance

theorem lookupGo_some_iff {d : Nat → Dirent} {name ext : List Nat} :
    ∀ n i0 i, lookupGo d name ext n i0 = some i ↔
      (i0 ≤ i ∧ i < i0 + n ∧ lookupMatches d name ext i ∧
        ∀ j, i0 ≤ j → j < i → ¬ lookupMatches d name ext j) := by
  intro n
  induction n with
  | zero =>
    intro i0 i
    simp only [lookupGo]
    constructor
    · intro h; cases h
    · rintro ⟨h1, h2, _⟩; omega
  | succ m ih =>
    intro i0 i
    by_cases hm : lookupMatches d name ext i0
    · have hskip : lookupGo d name ext (m + 1) i0 = some i0 := by
        obtain ⟨h1, h2, h3⟩ := hm
        simp only [lookupGo]
        simp [h1, h2, h3]
      rw [hskip]
      constructor
      · intro h
        cases h
        exact ⟨Nat.le_refl _, by omega, hm, fun j hj1 hj2 => by omega⟩
      · rintro ⟨h1, h2, h3, h4⟩
        rcases Nat.eq_or_lt_of_le h1 with rfl | hlt
        · rfl
        · exact absurd hm (h4 i0 (Nat.le_refl _) hlt)
    · have hskip : lookupGo d name ext (m + 1) i0 = lookupGo d name ext m (i0 + 1) := by
        simp only [lookupGo]
        by_cases h1 : (d i0).d_type = 0xff
        · simp [h1]
        · by_cases h2 : (d i0).d_name = name
          · by_cases h3 : (d i0).d_ext = ext
            · exact absurd ⟨h1, h2, h3⟩ hm
            · simp [h1, h2, h3]
          · simp [h1, h2]
      rw [hskip, ih (i0 + 1) i]
      constructor
      · rintro ⟨h1, h2, h3, h4⟩
        refine ⟨by omega, by omega, h3, fun j hj1 hj2 => ?_⟩
        rcases Nat.eq_or_lt_of_le hj1 with rfl | hlt
        · exact hm
        · exact h4 j hlt hj2
      · rintro ⟨h1, h2, h3, h4⟩
        have hne : i ≠ i0 := by rintro rfl; exact hm h3
        exact ⟨by omega, by omega, h3, fun j hj1 hj2 => h4 j (by omega) hj2⟩

/-! Lemmas about the allocation scan. -/

theorem gallocGo_some {m : Nat → Nat} :
    ∀ fuel last g, last < 68 → gallocGo m fuel last = some g →
      g < 68 ∧ m g = GMAP_FREE := by
  intro fuel
  induction fuel with
  | zero => intro last g _ h; simp [gallocGo] at h
  | succ k ih =>
    intro last g hlast h
    simp only [gallocGo] at h
    split at h
    · rename_i hb
      cases h
      exact ⟨hlast, by simpa [GMAP_FREE] using hb⟩
    · refine ih _ g ?_ h
      simp only [COCOFS_NGRANULES_eq]
      split <;> omega

theorem gallocGo_reach {m : Nat → Nat} :
    ∀ dist fuel last, last < 68 → dist < fuel → m ((last + dist) % 68) = GMAP_FREE →
      (gallocGo m fuel last).isSome = true := by
  intro dist
  induction dist with
  | zero =>
    intro fuel last hlast hfuel hfree
    obtain ⟨k, rfl⟩ := Nat.exists_eq_succ_of_ne_zero (by omega : fuel ≠ 0)
    simp only [gallocGo]
    rw [Nat.add_zero, Nat.mod_eq_of_lt hlast] at hfree
    rw [if_pos (by simpa [GMAP_FREE] using hfree)]
    rfl
  | succ dpred ih =>
    intro fuel last hlast hfuel hfree
    obtain ⟨k, rfl⟩ := Nat.exists_eq_succ_of_ne_zero (by omega : fuel ≠ 0)
    simp only [gallocGo]
    split
    · rfl
    · have hnext : (if last + 1 = COCOFS_NGRANULES then 0 else last + 1) = (last + 1) % 68 := by
        simp only [COCOFS_NGRANULES_eq]
        split <;> omega
      rw [hnext]
      apply ih k ((last + 1) % 68) (Nat.mod_lt _ (by omega)) (by omega)
      rw [Nat.mod_add_mod]
      have : last + 1 + dpred = last + (dpred + 1) := by omega
      rw [this]
      exact hfree

theorem gallocGo_of_exists_free {m : Nat → Nat} {last : Nat} (hlast : last < 68)
    (h : ∃ i, i < 68 ∧ m i = GMAP_FREE) :
    (gallocGo m (COCOFS_NGRANULES + 1) last).isSome = true := by
  obtain ⟨i, hi, hfree⟩ := h
  apply gallocGo_reach ((i + 68 - last) % 68) (COCOFS_NGRANULES + 1) last hlast
  · simp only [COCOFS_NGRANULES_eq]; omega
  · have : (last + (i + 68 - last) % 68) % 68 = i := by omega
    rw [this]; exact hfree

theorem cocofs_galloc_some {fs : Cocofs} {last g : Nat} {fs' : Cocofs}
    (hlast : last < 68) (h : cocofs_galloc fs last = some (g, fs')) :
    g < 68 ∧ fs.granule_map g = GMAP_FREE ∧
    fs'.granule_map = updFn fs.granule_map g GMAP_ALLOCATED ∧
    fs'.free_granules = (fs.free_granules + (2 ^ 32 - 1)) % 2 ^ 32 ∧
    fs'.directory = fs.directory ∧ fs'.image_data = fs.image_data := by
  unfold cocofs_galloc at h
  cases hg : gallocGo fs.granule_map (COCOFS_NGRANULES + 1) last with
  | none => simp only [hg] at h; cases h
  | some g0 =>
    simp only [hg] at h
    rw [Option.some.injEq, Prod.mk.injEq] at h
    obtain ⟨hgq, hfs⟩ := h
    subst hgq
    subst hfs
    obtain ⟨h1, h2⟩ := gallocGo_some _ last g0 hlast hg
    exact ⟨h1, h2, rfl, rfl, rfl, rfl⟩

theorem cocofs_galloc_isSome {fs : Cocofs} {last : Nat}
    (h : (gallocGo fs.granule_map (COCOFS_NGRANULES + 1) last).isSome = true) :
    (cocofs_galloc fs last).isSome = true := by
  unfold cocofs_galloc
  cases hgg : gallocGo fs.granule_map (COCOFS_NGRANULES + 1) last with
  | none => rw [hgg] at h; simp at h
  | some g => simp only [hgg]; rfl

/-- Count of Free entries among the 68 granule-map bytes. -/
def freeCount (m : Nat → Nat) : Nat :=
  ((Finset.range 68).filter (fun i => m i = GMAP_FREE)).card

theorem freeCount_updFn_alloc {m : Nat → Nat} {g : Nat} (hg : g < 68)
    (hfree : m g = GMAP_FREE) :
    freeCount (updFn m g GMAP_ALLOCATED) = freeCount m - 1 := by
  unfold freeCount
  have hset : (Finset.range 68).filter (fun i => updFn m g GMAP_ALLOCATED i = GMAP_FREE) =
      ((Finset.range 68).filter (fun i => m i = GMAP_FREE)).erase g := by
    ext i
    simp only [Finset.mem_filter, Finset.mem_range, Finset.mem_erase, updFn]
    constructor
    · rintro ⟨hi, hv⟩
      by_cases hig : i = g
      · subst hig; simp [GMAP_ALLOCATED, GMAP_FREE] at hv
      · rw [if_neg hig] at hv
        exact ⟨hig, hi, hv⟩
    · rintro ⟨hig, hi, hv⟩
      exact ⟨hi, by rw [if_neg hig]; exact hv⟩
  rw [hset]
  apply Finset.card_erase_of_mem
  simp only [Finset.mem_filter, Finset.mem_range]
  exact ⟨hg, hfree⟩

theorem freeCount_pos_exists {m : Nat → Nat} (h : 1 ≤ freeCount m) :
    ∃ i, i < 68 ∧ m i = GMAP_FREE := by
  unfold freeCount at h
  have : ((Finset.range 68).filter (fun i => m i = GMAP_FREE)).Nonempty :=
    Finset.card_pos.mp (by omega)
  obtain ⟨i, hi⟩ := this
  simp only [Finset.mem_filter, Finset.mem_range] at hi
  exact ⟨i, hi.1, hi.2⟩

theorem allocGo_succeeds :
    ∀ n (fs : Cocofs) (last : Nat), last < 68 → n ≤ freeCount fs.granule_map →
      (allocGo n fs last).isSome = true := by
  intro n
  induction n with
  | zero => intro fs last _ _; rfl
  | succ k ih =>
    intro fs last hlast hcount
    simp only [allocGo]
    have hex : ∃ i, i < 68 ∧ fs.granule_map i = GMAP_FREE :=
      freeCount_pos_exists (by omega)
    have hsome := cocofs_galloc_isSome (gallocGo_of_exists_free hlast hex)
    cases hg : cocofs_galloc fs last with
    | none => rw [hg] at hsome; simp at hsome
    | some p =>
      obtain ⟨g, fs'⟩ := p
      obtain ⟨hg68, hgfree, hmap, _⟩ := cocofs_galloc_some hlast hg
      have hcount' : k ≤ freeCount fs'.granule_map := by
        rw [hmap, freeCount_updFn_alloc hg68 hgfree]
        omega
      have hrec := ih fs' g hg68 hcount'
      simp only [hg]
      cases ha : allocGo k fs' g with
      | none => rw [ha] at hrec; simp at hrec
      | some q =>
        obtain ⟨gl, fsA⟩ := q
        simp only [ha]
        rfl

theorem allocGo_some_spec :
    ∀ n (fs : Cocofs) (last : Nat) gl fsA, last < 68 →
      allocGo n fs last = some (gl, fsA) →
      gl.length = n ∧ gl.Nodup ∧
      (∀ x ∈ gl, x < 68 ∧ fs.granule_map x = GMAP_FREE) ∧
      (∀ j, fsA.granule_map j = if j ∈ gl then GMAP_ALLOCATED else fs.granule_map j) ∧
      fsA.directory = fs.directory ∧ fsA.image_data = fs.image_data ∧
      (fs.free_granules < 2 ^ 32 → n ≤ fs.free_granules →
        fsA.free_granules = fs.free_granules - n) := by
  intro n
  induction n with
  | zero =>
    intro fs last gl fsA _ h
    simp only [allocGo] at h
    cases h
    refine ⟨rfl, List.nodup_nil, by simp, fun j => by simp, rfl, rfl, fun _ _ => by omega⟩
  | succ k ih =>
    intro fs last gl fsA hlast h
    simp only [allocGo] at h
    cases hg : cocofs_galloc fs last with
    | none => simp only [hg] at h; cases h
    | some p =>
      obtain ⟨g, fs'⟩ := p
      simp only [hg] at h
      cases ha : allocGo k fs' g with
      | none => simp only [ha] at h; cases h
      | some q =>
        obtain ⟨gl', fsA'⟩ := q
        simp only [ha] at h
        rw [Option.some.injEq, Prod.mk.injEq] at h
        obtain ⟨hgl, hfsA⟩ := h
        subst hgl
        subst hfsA
        obtain ⟨hg68, hgfree, hmap, hfree, hdir, himg⟩ := cocofs_galloc_some hlast hg
        obtain ⟨ihlen, ihnodup, ihfree, ihmap, ihdir, ihimg, ihcnt⟩ :=
          ih fs' g gl' fsA' hg68 ha
        have hgnotin : g ∉ gl' := by
          intro hin
          have := (ihfree g hin).2
          rw [hmap, updFn_same] at this
          simp [GMAP_ALLOCATED, GMAP_FREE] at this
        refine ⟨by simp [ihlen], List.nodup_cons.mpr ⟨hgnotin, ihnodup⟩, ?_, ?_, ?_, ?_, ?_⟩
        · intro x hx
          rcases List.mem_cons.mp hx with rfl | hx'
          · exact ⟨hg68, hgfree⟩
          · have h1 := (ihfree x hx').1
            have h2 := (ihfree x hx').2
            rw [hmap] at h2
            by_cases hxg : x = g
            · subst hxg; exact ⟨h1, hgfree⟩
            · rw [updFn_ne _ _ hxg] at h2
              exact ⟨h1, h2⟩
        · intro j
          rw [ihmap j, hmap]
          by_cases hj : j ∈ gl'
          · simp [hj, List.mem_cons]
          · by_cases hjg : j = g
            · subst hjg
              simp [hj, updFn_same]
            · rw [updFn_ne _ _ hjg]
              simp [hj, hjg, List.mem_cons]
        · rw [ihdir, hdir]
        · rw [ihimg, himg]
        · intro hlt hle
          have hfs' : fs'.free_granules = fs.free_granules - 1 := by
            rw [hfree, pow32_eq]
            rw [pow32_eq] at hlt
            omega
          have := ihcnt (by rw [hfs']; rw [pow32_eq] at hlt ⊢; omega)
            (by rw [hfs']; omega)
          rw [this, hfs']
          omega

/-! Lemmas about cocofs_rm. -/

theorem RmRes_isErr_eq {r : RmRes} (h : r.isErr = true) : r = .done false r.state := by
  cases r with
  | done ok fs => cases ok with
    | true => simp [RmRes.isErr] at h
    | false => rfl
  | spin => simp [RmRes.isErr] at h

theorem RmRes_isOk_eq {r : RmRes} (h : r.isOk = true) : r = .done true r.state := by
  cases r with
  | done ok fs => cases ok with
    | true => rfl
    | false => simp [RmRes.isOk] at h
  | spin => simp [RmRes.isOk] at h

/-- Count of non-Free entries among the 68 granule-map bytes. -/
def nonFreeCount (m : Nat → Nat) : Nat :=
  ((Finset.range 68).filter (fun i => m i ≠ GMAP_FREE)).card

theorem nonFreeCount_updFn_free {m : Nat → Nat} {g : Nat} (hg : g < 68)
    (h : m g ≠ GMAP_FREE) :
    nonFreeCount (updFn m g GMAP_FREE) = nonFreeCount m - 1 := by
  unfold nonFreeCount
  have hset : (Finset.range 68).filter (fun i => updFn m g GMAP_FREE i ≠ GMAP_FREE) =
      ((Finset.range 68).filter (fun i => m i ≠ GMAP_FREE)).erase g := by
    ext i
    simp only [Finset.mem_filter, Finset.mem_range, Finset.mem_erase, updFn]
    constructor
    · rintro ⟨hi, hv⟩
      by_cases hig : i = g
      · subst hig; rw [if_pos rfl] at hv; exact absurd rfl hv
      · rw [if_neg hig] at hv
        exact ⟨hig, hi, hv⟩
    · rintro ⟨hig, hi, hv⟩
      exact ⟨hi, by rw [if_neg hig]; exact hv⟩
  rw [hset]
  apply Finset.card_erase_of_mem
  simp only [Finset.mem_filter, Finset.mem_range]
  exact ⟨hg, h⟩

theorem nonFreeCount_pos {m : Nat → Nat} {g : Nat} (hg : g < 68)
    (h : m g ≠ GMAP_FREE) : 1 ≤ nonFreeCount m := by
  unfold nonFreeCount
  have : g ∈ (Finset.range 68).filter (fun i => m i ≠ GMAP_FREE) := by
    simp only [Finset.mem_filter, Finset.mem_range]
    exact ⟨hg, h⟩
  have := Finset.card_pos.mpr ⟨g, this⟩
  omega

/-- Every cocofs_rm walk returns within nonFreeCount + 1 iterations: each
iteration either returns or frees one non-free granule. -/
theorem rmGo_no_spin :
    ∀ fuel slot (fs : Cocofs) g, nonFreeCount fs.granule_map < fuel →
      rmGo slot fuel fs g ≠ .spin := by
  intro fuel
  induction fuel with
  | zero => intro slot fs g hcount; omega
  | succ k ih =>
    intro slot fs g hcount heq
    simp only [rmGo] at heq
    split at heq
    · cases heq
    · split at heq
      · cases heq
      · split at heq
        · cases heq
        · rename_i hg68 hval hlast
          have hg : g < 68 := by
            simp only [COCOFS_NGRANULES_eq] at hg68
            omega
          have hgn : fs.granule_map g ≠ GMAP_FREE := by
            intro hc
            apply hval
            simp [hc, GMAP_FREE]
          have hcount' :
              nonFreeCount (updFn fs.granule_map g GMAP_FREE) < k := by
            rw [nonFreeCount_updFn_free hg hgn]
            have := nonFreeCount_pos hg hgn
            omega
          exact ih slot _ _ hcount' heq

/-- What a failing cocofs_rm walk does: the directory and data are untouched
and the granule map has some set of previously non-free granules freed, one
counter increment per freed granule. -/
theorem rmGo_err :
    ∀ fuel slot (fs : Cocofs) g f, rmGo slot fuel fs g = .done false f →
      (∀ j, f.directory j = fs.directory j) ∧ f.image_data = fs.image_data ∧
      ∃ freed : List Nat, freed.Nodup ∧
        (∀ x ∈ freed, x < 68 ∧ fs.granule_map x ≠ GMAP_FREE) ∧
        (∀ j, f.granule_map j = if j ∈ freed then GMAP_FREE else fs.granule_map j) ∧
        (fs.free_granules < 2 ^ 32 →
          f.free_granules = (fs.free_granules + freed.length) % 2 ^ 32) := by
  intro fuel
  induction fuel with
  | zero => intro slot fs g f h; cases h
  | succ k ih =>
    intro slot fs g f h
    simp only [rmGo] at h
    split at h
    · cases h
      refine ⟨fun j => rfl, rfl, [], List.nodup_nil, by simp, fun j => by simp, ?_⟩
      intro hlt
      simpa using (Nat.mod_eq_of_lt hlt).symm
    · split at h
      · cases h
        refine ⟨fun j => rfl, rfl, [], List.nodup_nil, by simp, fun j => by simp, ?_⟩
        intro hlt
        simpa using (Nat.mod_eq_of_lt hlt).symm
      · split at h
        · injection h with hb hf
          cases hb
        · rename_i hg68 hval hlast
          have hg : g < 68 := by
            simp only [COCOFS_NGRANULES_eq] at hg68
            omega
          have hgn : fs.granule_map g ≠ GMAP_FREE := by
            intro hc
            apply hval
            simp [hc, GMAP_FREE]
          obtain ⟨hdir, himg, freed', hnodup', hinfs', hmap', hcnt'⟩ := ih slot _ _ f h
          dsimp only at hdir himg hinfs' hmap' hcnt'
          have hgnot : g ∉ freed' := by
            intro hin
            have := (hinfs' g hin).2
            rw [updFn_same] at this
            exact this rfl
          refine ⟨fun j => hdir j, himg, g :: freed', ?_, ?_, ?_, ?_⟩
          · exact List.nodup_cons.mpr ⟨hgnot, hnodup'⟩
          · intro x hx
            rcases List.mem_cons.mp hx with rfl | hx'
            · exact ⟨hg, hgn⟩
            · have h1 := (hinfs' x hx').1
              have h2 := (hinfs' x hx').2
              by_cases hxg : x = g
              · subst hxg; exact ⟨h1, hgn⟩
              · rw [updFn_ne _ _ hxg] at h2
                exact ⟨h1, h2⟩
          · intro j
            rw [hmap' j]
            by_cases hj : j ∈ freed'
            · simp [hj, List.mem_cons]
            · by_cases hjg : j = g
              · subst hjg
                simp [hj, updFn_same]
              · rw [updFn_ne _ _ hjg]
                simp [hj, hjg, List.mem_cons]
          · intro hlt
            have hlt1 : (fs.free_granules + 1) % 2 ^ 32 < 2 ^ 32 :=
              Nat.mod_lt _ (by rw [pow32_eq]; omega)
            have := hcnt' hlt1
            rw [this]
            simp only [List.length_cons]
            rw [Nat.mod_add_mod]
            congr 1
            omega

theorem getD_mem_of_lt {l : List Nat} {i : Nat} (h : i < l.length) : l.getD i 0 ∈ l := by
  rw [List.getD_eq_getElem l 0 h]
  exact List.getElem_mem h

/-- Removing a well-formed chain frees exactly its granules, restores the
counter by the chain length, and resets the directory slot. -/
theorem rmGo_chain :
    ∀ (chain : List Nat) slot fuel (fs : Cocofs) nsec, chain ≠ [] →
      chain.length ≤ fuel → chain.Nodup → (∀ x ∈ chain, x < 68) →
      (∀ i, i + 1 < chain.length →
        fs.granule_map (chain.getD i 0) = chain.getD (i + 1) 0) →
      fs.granule_map (chain.getD (chain.length - 1) 0) = GMAP_LAST ||| nsec →
      1 ≤ nsec → nsec ≤ 9 →
      fs.free_granules + chain.length < 2 ^ 32 →
      ∃ f, rmGo slot fuel fs (chain.headD 0) = .done true f ∧
        f.free_granules = fs.free_granules + chain.length ∧
        (∀ j, f.granule_map j = if j ∈ chain then GMAP_FREE else fs.granule_map j) ∧
        (∀ j, j ≠ slot → f.directory j = fs.directory j) ∧
        f.directory slot = freeDirent ∧
        f.image_data = fs.image_data := by
  intro chain
  induction chain with
  | nil => intro slot fuel fs nsec hne; exact absurd rfl hne
  | cons g rest ih =>
    intro slot fuel fs nsec _ hfuel hnodup hlt hlink hterm hn1 hn9 hW
    obtain ⟨fl, rfl⟩ : ∃ fl, fuel = fl + 1 := by
      cases fuel with
      | zero => simp at hfuel
      | succ fl => exact ⟨fl, rfl⟩
    have hg : g < 68 := hlt g (List.mem_cons_self g rest)
    cases rest with
    | nil =>
      have hmapg : fs.granule_map g = GMAP_LAST ||| nsec := by
        simpa using hterm
      refine ⟨{ fs with granule_map := updFn fs.granule_map g GMAP_FREE
                        free_granules := (fs.free_granules + 1) % 2 ^ 32
                        directory := updDir fs.directory slot freeDirent },
        ?_, ?_, ?_, ?_, ?_, ?_⟩
      · show rmGo slot (fl + 1) fs ((g :: ([] : List Nat)).headD 0) = _
        simp only [List.headD_cons, rmGo]
        rw [if_neg (by simp only [COCOFS_NGRANULES_eq]; omega)]
        rw [hmapg]
        rw [if_neg (by
          simp only [Bool.or_eq_true, Bool.not_eq_true', beq_iff_eq]
          push_neg
          exact ⟨by simp [gmap_valid_terminal nsec hn9], terminal_ne_free nsec hn9⟩)]
        rw [if_pos (GMAP_IS_LAST_terminal nsec (by omega))]
      · show (fs.free_granules + 1) % 2 ^ 32 = fs.free_granules + 1
        apply Nat.mod_eq_of_lt
        simp only [List.length_cons, List.length_nil] at hW
        omega
      · intro j
        dsimp only
        by_cases hj : j = g
        · subst hj; rw [updFn_same]; simp
        · rw [updFn_ne _ _ hj]
          simp [hj]
      · intro j hj
        exact updDir_ne _ _ hj
      · exact updDir_same _ _ _
      · rfl
    | cons g2 rest2 =>
      have hmapg : fs.granule_map g = g2 := by
        have := hlink 0 (by simp)
        simpa using this
      have hg2 : g2 < 68 := hlt g2 (by simp)
      have hg2ne : g2 ≠ GMAP_FREE := by simp only [GMAP_FREE]; omega
      let fs2 : Cocofs :=
        { fs with granule_map := updFn fs.granule_map g GMAP_FREE
                  free_granules := (fs.free_granules + 1) % 2 ^ 32 }
      have hgnot : g ∉ g2 :: rest2 := (List.nodup_cons.mp hnodup).1
      have hfree2 : fs2.free_granules = fs.free_granules + 1 := by
        show (fs.free_granules + 1) % 2 ^ 32 = fs.free_granules + 1
        apply Nat.mod_eq_of_lt
        simp only [List.length_cons] at hW
        omega
      have hmap2 : ∀ x ∈ g2 :: rest2, fs2.granule_map x = fs.granule_map x := by
        intro x hx
        have : x ≠ g := fun hc => hgnot (hc ▸ hx)
        exact updFn_ne _ _ this
      obtain ⟨f, hrun, hcnt, hmapf, hdirf, hdirslot, himgf⟩ :=
        ih slot fl fs2 nsec (by simp) (by simp at hfuel ⊢; omega)
          (List.nodup_cons.mp hnodup).2
          (fun x hx => hlt x (List.mem_cons_of_mem _ hx))
          (fun i hi => by
            have hx : (g2 :: rest2).getD i 0 ∈ g2 :: rest2 :=
              getD_mem_of_lt (by simp only [List.length_cons] at hi ⊢; omega)
            rw [hmap2 _ hx]
            have := hlink (i + 1) (by simp at hi ⊢; omega)
            simpa using this)
          (by
            have hx : (g2 :: rest2).getD ((g2 :: rest2).length - 1) 0 ∈ g2 :: rest2 :=
              getD_mem_of_lt (by simp)
            rw [hmap2 _ hx]
            have := hterm
            simp only [List.length_cons] at this ⊢
            simpa using this)
          hn1 hn9
          (by rw [hfree2]; simp only [List.length_cons] at hW ⊢; omega)
      refine ⟨f, ?_, ?_, ?_, hdirf, hdirslot, himgf⟩
      · show rmGo slot (fl + 1) fs ((g :: g2 :: rest2).headD 0) = _
        simp only [List.headD_cons, rmGo]
        rw [if_neg (by simp only [COCOFS_NGRANULES_eq]; omega)]
        rw [hmapg]
        rw [if_neg (by
          simp only [Bool.or_eq_true, Bool.not_eq_true', beq_iff_eq]
          push_neg
          exact ⟨by simp [gmap_valid_of_le g2 (by omega)], hg2ne⟩)]
        rw [if_neg (by rw [GMAP_IS_LAST_of_lt g2 (by omega)]; simp)]
        simpa using hrun
      · rw [hcnt, hfree2]
        simp only [List.length_cons]
        omega
      · intro j
        rw [hmapf j]
        by_cases hj : j ∈ g2 :: rest2
        · simp [hj, List.mem_cons]
        · by_cases hjg : j = g
          · subst hjg
            rw [if_neg hj, if_pos (List.mem_cons_self _ _)]
            exact updFn_same _ _ _
          · rw [if_neg hj, if_neg (by
              intro hc
              rcases List.mem_cons.mp hc with rfl | hc'
              · exact hjg rfl
              · exact hj hc')]
            exact updFn_ne _ _ hjg

/-! Lemmas about the content loop of cocofs_copyin. -/

/-- The sector count the last-granule branch computes: ceil(r / 256). -/
def nsecOf (r : Nat) : Nat :=
  r / COCOFS_BYTES_PER_SEC + (if r % COCOFS_BYTES_PER_SEC ≠ 0 then 1 else 0)

/-- The bytes-in-last-sector value the last-granule branch computes. -/
def lastbytesOf (r : Nat) : Nat :=
  if r % COCOFS_BYTES_PER_SEC = 0 then COCOFS_BYTES_PER_SEC
  else r % COCOFS_BYTES_PER_SEC

/-- Membership of an offset in a granule's 2304-byte data range. -/
def inGranuleRange (g o : Nat) : Prop :=
  cocofs_granule_to_offset g ≤ o ∧
    o < cocofs_granule_to_offset g + COCOFS_BYTES_PER_GRANULE

theorem getD_take_drop (l : List Nat) (o n j : Nat) (hj : j < n)
    (hlen : o + j < l.length) :
    ((l.drop o).take n).getD j 0 = l.getD (o + j) 0 := by
  have h1 : j < ((l.drop o).take n).length := by
    simp [List.length_take, List.length_drop]
    omega
  rw [List.getD_eq_getElem _ 0 h1, List.getD_eq_getElem _ 0 hlen]
  rw [List.getElem_take]
  rw [List.getElem_drop]

/-- When the whole source is readable, the content loop succeeds. -/
theorem writeGo_succeeds (src : SrcFile) (gl name ext : List Nat) (ty enc slot : Nat) :
    ∀ fuel gi resid (fs : Cocofs),
      resid = src.size - COCOFS_BYTES_PER_GRANULE * gi →
      src.size ≤ src.data.length →
      (resid + (COCOFS_BYTES_PER_GRANULE - 1)) / COCOFS_BYTES_PER_GRANULE ≤ fuel →
      ∃ f, writeGo src gl name ext ty enc slot fuel gi resid fs = .success f := by
  intro fuel
  induction fuel with
  | zero =>
    intro gi resid fs hresid hdata hfuel
    have hr0 : resid = 0 := by
      simp only [COCOFS_BYTES_PER_GRANULE_eq] at hfuel ⊢
      omega
    exact ⟨fs, by simp [writeGo, hr0]⟩
  | succ fl ih =>
    intro gi resid fs hresid hdata hfuel
    by_cases hr0 : resid = 0
    · exact ⟨fs, by simp [writeGo, hr0]⟩
    · have hpos : 1 ≤ resid := by omega
      have hresz : COCOFS_BYTES_PER_GRANULE * gi + resid ≤ src.data.length := by
        simp only [COCOFS_BYTES_PER_GRANULE_eq] at hresid ⊢
        omega
      simp only [writeGo]
      rw [if_neg hr0]
      rw [if_neg (by
        simp only [COCOFS_BYTES_PER_GRANULE_eq] at hresz ⊢
        omega)]
      split
      · exact ih (gi + 1) (resid - min resid COCOFS_BYTES_PER_GRANULE) _
          (by simp only [COCOFS_BYTES_PER_GRANULE_eq] at hresid ⊢; omega)
          hdata
          (by simp only [COCOFS_BYTES_PER_GRANULE_eq] at hfuel hresid ⊢; omega)
      · exact ih (gi + 1) (resid - min resid COCOFS_BYTES_PER_GRANULE) _
          (by simp only [COCOFS_BYTES_PER_GRANULE_eq] at hresid ⊢; omega)
          hdata
          (by simp only [COCOFS_BYTES_PER_GRANULE_eq] at hfuel hresid ⊢; omega)


theorem writeGo_zero (src : SrcFile) (gl name ext : List Nat) (ty enc slot : Nat) :
    ∀ fuel gi (fs : Cocofs),
      writeGo src gl name ext ty enc slot fuel gi 0 fs = .success fs := by
  intro fuel gi fs
  cases fuel <;> simp [writeGo]

theorem nodup_getD_ne {l : List Nat} (h : l.Nodup) {i j : Nat} (hi : i < l.length)
    (hj : j < l.length) (hij : i ≠ j) (d : Nat) : l.getD i d ≠ l.getD j d := by
  rw [List.getD_eq_getElem l d hi, List.getD_eq_getElem l d hj]
  intro hc
  exact hij ((List.Nodup.getElem_inj_iff h).mp hc)

theorem getD_mem_drop {l : List Nat} {i : Nat} (h : i < l.length) (d : Nat) :
    l.getD i d ∈ l.drop i := by
  rw [List.getD_eq_getElem l d h, List.drop_eq_getElem_cons h]
  exact List.mem_cons_self _ _

theorem drop_cons_getD {l : List Nat} {i : Nat} (h : i < l.length) (d : Nat) :
    l.drop i = l.getD i d :: l.drop (i + 1) := by
  rw [List.getD_eq_getElem l d h]
  exact List.drop_eq_getElem_cons h

/-- What a successful content loop does to the state: the visited granules
are chained Link by Link ending in the Terminal tag, the source bytes land
in their data areas, the claimed slot gets the new entry, and nothing else
(map bytes, slots, data, counter) changes. -/
theorem writeGo_success_spec (src : SrcFile) (gl name ext : List Nat) (ty enc slot : Nat)
    (hnodup : gl.Nodup) :
    ∀ fuel gi resid (fs f : Cocofs),
      writeGo src gl name ext ty enc slot fuel gi resid fs = .success f →
      resid = src.size - gi * COCOFS_BYTES_PER_GRANULE →
      1 ≤ resid →
      gl.length = gi + (resid + (COCOFS_BYTES_PER_GRANULE - 1)) / COCOFS_BYTES_PER_GRANULE →
      f.free_granules = fs.free_granules ∧
      (∀ j, j ∉ gl.drop gi → f.granule_map j = fs.granule_map j) ∧
      (∀ i, gi ≤ i → i + 1 < gl.length →
        f.granule_map (gl.getD i 0xff) = gl.getD (i + 1) 0xff) ∧
      f.granule_map (gl.getD (gl.length - 1) 0xff) =
        GMAP_LAST ||| nsecOf (src.size - (gl.length - 1) * COCOFS_BYTES_PER_GRANULE) ∧
      f.directory slot = copyinEntry (fs.directory slot) name ext ty enc (gl.getD 0 0xff)
        (lastbytesOf (src.size - (gl.length - 1) * COCOFS_BYTES_PER_GRANULE)) ∧
      (∀ j, j ≠ slot → f.directory j = fs.directory j) ∧
      (∀ i j, gi ≤ i → i < gl.length →
        j < min (src.size - i * COCOFS_BYTES_PER_GRANULE) COCOFS_BYTES_PER_GRANULE →
        f.image_data (cocofs_granule_to_offset (gl.getD i 0xff) + j) =
          src.data.getD (i * COCOFS_BYTES_PER_GRANULE + j) 0) ∧
      (∀ o, (∀ i, gi ≤ i → i < gl.length → ¬ inGranuleRange (gl.getD i 0xff) o) →
        f.image_data o = fs.image_data o) := by
  intro fuel
  induction fuel with
  | zero =>
    intro gi resid fs f h hresid hpos hlen
    simp only [writeGo] at h
    rw [if_neg (by omega)] at h
    cases h
  | succ fl ih =>
    intro gi resid fs f h hresid hpos hlen
    have hq1 : 1 ≤ (resid + (COCOFS_BYTES_PER_GRANULE - 1)) / COCOFS_BYTES_PER_GRANULE := by
      simp only [COCOFS_BYTES_PER_GRANULE_eq]
      omega
    have hgi_lt : gi < gl.length := by omega
    simp only [writeGo] at h
    rw [if_neg (by omega)] at h
    split at h
    · cases h
    · rename_i hrv
      rw [not_ne_iff] at hrv
      have hdata0 : min resid COCOFS_BYTES_PER_GRANULE ≤
          src.data.length - gi * COCOFS_BYTES_PER_GRANULE := by
        simp only [COCOFS_BYTES_PER_GRANULE_eq] at hrv ⊢
        omega
      rw [hrv] at h
      split at h
      · -- last granule: resid at most 2304, the chain terminates here
        rename_i hlastg
        have hlen1 : gl.length = gi + 1 := by
          simp only [COCOFS_BYTES_PER_GRANULE_eq] at hlen hlastg
          omega
        have hc : min resid COCOFS_BYTES_PER_GRANULE = resid := by
          simp only [COCOFS_BYTES_PER_GRANULE_eq] at hlastg ⊢
          omega
        rw [hc, Nat.sub_self, writeGo_zero] at h
        injection h with hf
        subst hf
        have hgD : gl.getD gi 0xff ∈ gl.drop gi := getD_mem_drop hgi_lt 0xff
        have hbl : ((src.data.drop (gi * COCOFS_BYTES_PER_GRANULE)).take resid).length
            = resid := by
          rw [List.length_take, List.length_drop]
          omega
        refine ⟨rfl, ?_, ?_, ?_, ?_, ?_, ?_, ?_⟩
        · intro j hj
          have hne : j ≠ gl.getD gi 0xff := fun hc2 => hj (hc2 ▸ hgD)
          exact updFn_ne _ _ hne
        · intro i hi1 hi2
          omega
        · have hgl1 : gl.length - 1 = gi := by omega
          rw [hgl1, ← hresid]
          dsimp only
          rw [updFn_same]
          rfl
        · have hgl1 : gl.length - 1 = gi := by omega
          rw [hgl1, ← hresid]
          dsimp only
          rw [updDir_same]
          rfl
        · intro j hj
          exact updDir_ne _ _ hj
        · intro i j hi1 hi2 hj
          have hieq : i = gi := by omega
          subst hieq
          rw [← hresid] at hj
          have hjr : j < resid := by
            simp only [COCOFS_BYTES_PER_GRANULE_eq] at hj hlastg ⊢
            omega
          dsimp only
          rw [zeroRange_out _ _ _ (Or.inl (by omega))]
          rw [writeBytes_in _ _ _ (Nat.le_add_right _ _) (by rw [hbl]; omega)]
          rw [Nat.add_sub_cancel_left]
          apply getD_take_drop _ _ _ _ hjr
          simp only [COCOFS_BYTES_PER_GRANULE_eq] at hdata0 hc ⊢
          omega
        · intro o ho
          have hnotg : ¬ inGranuleRange (gl.getD gi 0xff) o := ho gi (Nat.le_refl _) hgi_lt
          have hor : o < cocofs_granule_to_offset (gl.getD gi 0xff) ∨
              cocofs_granule_to_offset (gl.getD gi 0xff) + COCOFS_BYTES_PER_GRANULE ≤ o := by
            unfold inGranuleRange at hnotg
            omega
          dsimp only
          rw [zeroRange_out _ _ _ (by
            simp only [COCOFS_BYTES_PER_GRANULE_eq] at hor hlastg ⊢
            omega)]
          rw [writeBytes_out _ _ _ (by
            rw [hbl]
            simp only [COCOFS_BYTES_PER_GRANULE_eq] at hor hlastg ⊢
            omega)]
      · -- not the last granule: link to the next granule and recurse
        rename_i hlastg
        have hc : min resid COCOFS_BYTES_PER_GRANULE = COCOFS_BYTES_PER_GRANULE := by
          simp only [COCOFS_BYTES_PER_GRANULE_eq] at hlastg ⊢
          omega
        rw [hc] at h
        have hgD : gl.getD gi 0xff ∈ gl.drop gi := getD_mem_drop hgi_lt 0xff
        have hdropc : gl.drop gi = gl.getD gi 0xff :: gl.drop (gi + 1) :=
          drop_cons_getD hgi_lt 0xff
        have hnodupd : (gl.drop gi).Nodup := hnodup.sublist (List.drop_sublist gi gl)
        have hgnot : gl.getD gi 0xff ∉ gl.drop (gi + 1) := by
          rw [hdropc] at hnodupd
          exact (List.nodup_cons.mp hnodupd).1
        have hbl : ((src.data.drop (gi * COCOFS_BYTES_PER_GRANULE)).take
            COCOFS_BYTES_PER_GRANULE).length = COCOFS_BYTES_PER_GRANULE := by
          rw [List.length_take, List.length_drop]
          simp only [COCOFS_BYTES_PER_GRANULE_eq] at hdata0 hc ⊢
          omega
        obtain ⟨c1, c2, c3, c4, c5, c6, c7, c8⟩ :=
          ih (gi + 1) (resid - COCOFS_BYTES_PER_GRANULE) _ f h
            (by simp only [COCOFS_BYTES_PER_GRANULE_eq] at hresid hlastg ⊢; omega)
            (by simp only [COCOFS_BYTES_PER_GRANULE_eq] at hlastg ⊢; omega)
            (by simp only [COCOFS_BYTES_PER_GRANULE_eq] at hlen hlastg ⊢; omega)
        dsimp only at c1 c2 c3 c4 c5 c6 c7 c8
        refine ⟨c1, ?_, ?_, c4, c5, c6, ?_, ?_⟩
        · intro j hj
          have hj2 : j ∉ gl.drop (gi + 1) := by
            rw [hdropc] at hj
            exact fun hx => hj (List.mem_cons_of_mem _ hx)
          have hne : j ≠ gl.getD gi 0xff := by
            rw [hdropc] at hj
            exact fun hc2 => hj (hc2 ▸ List.mem_cons_self _ _)
          rw [c2 j hj2]
          exact updFn_ne _ _ hne
        · intro i hi1 hi2
          rcases Nat.eq_or_lt_of_le hi1 with rfl | hgt
          · rw [c2 _ hgnot]
            exact updFn_same _ _ _
          · exact c3 i (by omega) hi2
        · intro i j hi1 hi2 hj
          rcases Nat.eq_or_lt_of_le hi1 with rfl | hgt
          · have hj2 : j < COCOFS_BYTES_PER_GRANULE := by
              simp only [COCOFS_BYTES_PER_GRANULE_eq] at hj ⊢
              omega
            have huntouched : ∀ i', gi + 1 ≤ i' → i' < gl.length →
                ¬ inGranuleRange (gl.getD i' 0xff)
                  (cocofs_granule_to_offset (gl.getD gi 0xff) + j) := by
              intro i' hi1' hi2' hctr
              have hne : gl.getD gi 0xff ≠ gl.getD i' 0xff :=
                nodup_getD_ne hnodup hgi_lt hi2' (by omega) 0xff
              unfold inGranuleRange at hctr
              rcases granule_ranges_disjoint hne with hd | hd
              · simp only [COCOFS_BYTES_PER_GRANULE_eq] at hctr hd hj2
                omega
              · simp only [COCOFS_BYTES_PER_GRANULE_eq] at hctr hd hj2
                omega
            rw [c8 _ huntouched]
            have hjin : cocofs_granule_to_offset (gl.getD gi 0xff) + j <
                cocofs_granule_to_offset (gl.getD gi 0xff) +
                  ((src.data.drop (gi * COCOFS_BYTES_PER_GRANULE)).take
                    COCOFS_BYTES_PER_GRANULE).length := by
              rw [hbl]
              simp only [COCOFS_BYTES_PER_GRANULE_eq] at hj2 ⊢
              omega
            rw [writeBytes_in _ _ _ (Nat.le_add_right _ _) hjin]
            rw [Nat.add_sub_cancel_left]
            have hdata1 : gi * 2304 + 2304 ≤ src.data.length := by
              have h1 := hdata0
              have h2 := hc
              simp only [COCOFS_BYTES_PER_GRANULE_eq] at h1 h2
              omega
            have hj3 : j < 2304 := by
              simpa [COCOFS_BYTES_PER_GRANULE_eq] using hj2
            apply getD_take_drop _ _ _ _ hj2
            simp only [COCOFS_BYTES_PER_GRANULE_eq]
            omega
          · exact c7 i j (by omega) hi2 hj
        · intro o ho
          have ho2 : ∀ i', gi + 1 ≤ i' → i' < gl.length →
              ¬ inGranuleRange (gl.getD i' 0xff) o :=
            fun i' h1 h2 => ho i' (by omega) h2
          rw [c8 o ho2]
          have hnotg := ho gi (Nat.le_refl _) hgi_lt
          rw [writeBytes_out _ _ _ (by
            rw [hbl]
            unfold inGranuleRange at hnotg
            omega)]


theorem getD_default_irrel {l : List Nat} {i : Nat} (h : i < l.length) (d1 d2 : Nat) :
    l.getD i d1 = l.getD i d2 := by
  rw [List.getD_eq_getElem l d1 h, List.getD_eq_getElem l d2 h]

theorem nsecOf_range {r : Nat} (h1 : 1 ≤ r) (h2 : r ≤ COCOFS_BYTES_PER_GRANULE) :
    1 ≤ nsecOf r ∧ nsecOf r ≤ 9 := by
  unfold nsecOf
  simp only [COCOFS_BYTES_PER_SEC_eq]
  simp only [COCOFS_BYTES_PER_GRANULE_eq] at h2
  constructor
  · split <;> omega
  · split <;> omega

theorem lastbytesOf_range {r : Nat} (_h1 : 1 ≤ r) :
    1 ≤ lastbytesOf r ∧ lastbytesOf r ≤ COCOFS_BYTES_PER_SEC := by
  unfold lastbytesOf
  simp only [COCOFS_BYTES_PER_SEC_eq]
  split <;> omega

theorem last_nbytes_eq {r : Nat} (h1 : 1 ≤ r) (h2 : r ≤ COCOFS_BYTES_PER_GRANULE) :
    nsecOf r * COCOFS_BYTES_PER_SEC - (COCOFS_BYTES_PER_SEC - lastbytesOf r) = r := by
  unfold nsecOf lastbytesOf
  simp only [COCOFS_BYTES_PER_SEC_eq]
  simp only [COCOFS_BYTES_PER_GRANULE_eq] at h2
  by_cases hmod : r % 256 = 0
  · rw [if_neg (by omega), if_pos hmod]
    omega
  · rw [if_pos hmod, if_neg hmod]
    omega

/-- Walking a well-formed chain, cocofs_copyout emits exactly the bytes the
content loop stored: full granules for every Link and the last r bytes for
the Terminal granule. -/
theorem copyoutGo_chain (fs : Cocofs) (dir : Dirent) (data : List Nat) :
    ∀ (chain : List Nat) (o0 resid : Nat) (acc : List Nat) (fuel : Nat),
      chain ≠ [] →
      chain.length ≤ fuel →
      (∀ x ∈ chain, x < 68) →
      (∀ i, i + 1 < chain.length →
        fs.granule_map (chain.getD i 0xff) = chain.getD (i + 1) 0xff) →
      fs.granule_map (chain.getD (chain.length - 1) 0xff) = GMAP_LAST ||| nsecOf resid →
      1 ≤ resid → resid ≤ COCOFS_BYTES_PER_GRANULE →
      cocofs_dir_lastbytes dir.d_last_bytes0 dir.d_last_bytes1 = lastbytesOf resid →
      (∀ i j, i < chain.length →
        j < min ((chain.length - 1 - i) * COCOFS_BYTES_PER_GRANULE + resid)
          COCOFS_BYTES_PER_GRANULE →
        fs.image_data (cocofs_granule_to_offset (chain.getD i 0xff) + j) =
          data.getD (o0 + i * COCOFS_BYTES_PER_GRANULE + j) 0) →
      o0 + ((chain.length - 1) * COCOFS_BYTES_PER_GRANULE + resid) ≤ data.length →
      copyoutGo fs dir fuel 0 (chain.getD 0 0xff) acc =
        .ok (acc ++ (data.drop o0).take
          ((chain.length - 1) * COCOFS_BYTES_PER_GRANULE + resid)) := by
  intro chain
  induction chain with
  | nil => intro o0 resid acc fuel hne; exact absurd rfl hne
  | cons g rest ih =>
    intro o0 resid acc fuel _ hfuel hlt hlink hterm hr1 hr2 hlb hcontent hdata
    obtain ⟨fl, rfl⟩ : ∃ fl, fuel = fl + 1 := by
      cases fuel with
      | zero => simp at hfuel
      | succ fl => exact ⟨fl, rfl⟩
    have hg : g < 68 := hlt g (List.mem_cons_self g rest)
    obtain ⟨hn1, hn9⟩ := nsecOf_range hr1 hr2
    cases rest with
    | nil =>
      have hmapg : fs.granule_map g = GMAP_LAST ||| nsecOf resid := by
        simpa using hterm
      simp only [List.getD_cons_zero, copyoutGo]
      rw [if_neg (by simp only [COCOFS_NGRANULES_eq]; omega)]
      rw [if_neg (by simp only [COCOFS_NGRANULES_eq]; omega)]
      simp only [hmapg]
      rw [if_neg (by
        simp only [Bool.or_eq_true, Bool.not_eq_true', beq_iff_eq]
        push_neg
        exact ⟨by simp [gmap_valid_terminal _ hn9], terminal_ne_free _ hn9⟩)]
      rw [if_pos (GMAP_IS_LAST_terminal _ (by omega))]
      simp only [GMAP_LAST_NSEC_terminal (nsecOf resid) (by omega : nsecOf resid < 16)]
      rw [if_neg (by
        simp only [Bool.or_eq_true, decide_eq_true_eq, COCOFS_SEC_PER_GRANULE]
        omega)]
      simp only [hlb]
      rw [if_neg (by
        have := (lastbytesOf_range hr1).2
        simp only [COCOFS_BYTES_PER_SEC_eq] at this ⊢
        omega)]
      rw [last_nbytes_eq hr1 hr2]
      have hread : readBytes fs.image_data (cocofs_granule_to_offset g) resid =
          (data.drop o0).take resid := by
        apply readBytes_eq_slice resid (cocofs_granule_to_offset g) o0
        · have hx := hdata
          simp only [List.length_cons, List.length_nil] at hx
          omega
        · intro j hj
          have := hcontent 0 j (by simp) (by
            simp only [List.length_cons, List.length_nil]
            omega)
          simpa using this
      rw [hread]
      simp
    | cons g2 rest2 =>
      have hmapg : fs.granule_map g = g2 := by
        have := hlink 0 (by simp)
        simpa using this
      have hg2 : g2 < 68 := hlt g2 (by simp)
      simp only [List.getD_cons_zero, copyoutGo]
      rw [if_neg (by simp only [COCOFS_NGRANULES_eq]; omega)]
      rw [if_neg (by simp only [COCOFS_NGRANULES_eq]; omega)]
      simp only [hmapg]
      rw [if_neg (by
        simp only [Bool.or_eq_true, Bool.not_eq_true', beq_iff_eq]
        push_neg
        refine ⟨by simp [gmap_valid_of_le g2 (by omega)], ?_⟩
        simp only [GMAP_FREE]
        omega)]
      rw [if_neg (by rw [GMAP_IS_LAST_of_lt g2 (by omega)]; simp)]
      have hlen2 : (g2 :: rest2).length ≥ 1 := by simp
      have hread : readBytes fs.image_data (cocofs_granule_to_offset g)
          COCOFS_BYTES_PER_GRANULE = (data.drop o0).take COCOFS_BYTES_PER_GRANULE := by
        apply readBytes_eq_slice COCOFS_BYTES_PER_GRANULE (cocofs_granule_to_offset g) o0
        · simp only [List.length_cons] at hdata
          simp only [COCOFS_BYTES_PER_GRANULE_eq] at hdata ⊢
          omega
        · intro j hj
          have := hcontent 0 j (by simp) (by
            simp only [List.length_cons]
            simp only [COCOFS_BYTES_PER_GRANULE_eq] at hj ⊢
            omega)
          simpa using this
      rw [hread]
      have hstep := ih (o0 + COCOFS_BYTES_PER_GRANULE) resid
        (acc ++ (data.drop o0).take COCOFS_BYTES_PER_GRANULE) fl
        (by simp)
        (by simp only [List.length_cons] at hfuel ⊢; omega)
        (fun x hx => hlt x (List.mem_cons_of_mem _ hx))
        (fun i hi => by
          have := hlink (i + 1) (by simp only [List.length_cons] at hi ⊢; omega)
          simpa using this)
        (by
          have := hterm
          simp only [List.length_cons] at this ⊢
          simpa using this)
        hr1 hr2 hlb
        (fun i j hi hj => by
          have := hcontent (i + 1) j
            (by simp only [List.length_cons] at hi ⊢; omega)
            (by
              simp only [List.length_cons] at hj ⊢
              simp only [COCOFS_BYTES_PER_GRANULE_eq] at hj ⊢
              omega)
          have harith : o0 + (i + 1) * COCOFS_BYTES_PER_GRANULE + j =
              o0 + COCOFS_BYTES_PER_GRANULE + i * COCOFS_BYTES_PER_GRANULE + j := by
            ring
          rw [harith] at this
          simpa using this)
        (by
          simp only [List.length_cons] at hdata ⊢
          simp only [COCOFS_BYTES_PER_GRANULE_eq] at hdata ⊢
          omega)
      simp only [List.getD_cons_zero] at hstep
      rw [hstep]
      have hsplit : (data.drop o0).take COCOFS_BYTES_PER_GRANULE ++
          ((data.drop (o0 + COCOFS_BYTES_PER_GRANULE)).take
            (((g2 :: rest2).length - 1) * COCOFS_BYTES_PER_GRANULE + resid)) =
          (data.drop o0).take
            (((g :: g2 :: rest2).length - 1) * COCOFS_BYTES_PER_GRANULE + resid) := by
        have hT : ((g :: g2 :: rest2).length - 1) * COCOFS_BYTES_PER_GRANULE + resid =
            COCOFS_BYTES_PER_GRANULE +
              (((g2 :: rest2).length - 1) * COCOFS_BYTES_PER_GRANULE + resid) := by
          simp only [List.length_cons]
          ring_nf
          simp only [COCOFS_BYTES_PER_GRANULE_eq]
          omega
        conv_rhs => rw [hT, List.take_add, List.drop_drop]
      rw [← hsplit]
      simp [List.append_assoc]



/-! Lemmas about cocofs_copyin as a whole. -/

/-- granules_needed as computed by cocofs_copyin. -/
def granulesNeeded (L : Nat) : Nat :=
  L / COCOFS_BYTES_PER_GRANULE + (if L % COCOFS_BYTES_PER_GRANULE ≠ 0 then 1 else 0)

theorem granulesNeeded_eq (L : Nat) :
    granulesNeeded L = (L + (COCOFS_BYTES_PER_GRANULE - 1)) / COCOFS_BYTES_PER_GRANULE := by
  unfold granulesNeeded
  simp only [COCOFS_BYTES_PER_GRANULE_eq]
  split <;> omega

theorem CopyinRes_isSuccess_eq {r : CopyinRes} (h : r.isSuccess = true) :
    r = .success r.state := by
  cases r with
  | success fs => rfl
  | failure e fs => simp [CopyinRes.isSuccess] at h
  | aborted => simp [CopyinRes.isSuccess] at h

theorem CopyinRes_isFailure_eq {r : CopyinRes} (h : r.isFailure = true) :
    ∃ e, r = .failure e r.state := by
  cases r with
  | success fs => simp [CopyinRes.isFailure] at h
  | failure e fs => exact ⟨e, rfl⟩
  | aborted => simp [CopyinRes.isFailure] at h

/-- A failing content loop never touched the directory or the counter: the
only directory write happens in the last-granule branch, after which the
loop can only exit successfully. -/
theorem writeGo_failure_elim (src : SrcFile) (gl name ext : List Nat) (ty enc slot : Nat) :
    ∀ fuel gi resid (fs f : Cocofs) e,
      writeGo src gl name ext ty enc slot fuel gi resid fs = .failure e f →
      e = .readShort ∧ f.directory = fs.directory ∧ f.free_granules = fs.free_granules := by
  intro fuel
  induction fuel with
  | zero =>
    intro gi resid fs f e h
    simp only [writeGo] at h
    split at h <;> cases h
  | succ fl ih =>
    intro gi resid fs f e h
    simp only [writeGo] at h
    split at h
    · cases h
    · split at h
      · cases h
        exact ⟨rfl, rfl, rfl⟩
      · split at h
        · rename_i hr0 hrv hlast
          have hz : resid - min resid COCOFS_BYTES_PER_GRANULE = 0 := by omega
          rw [hz, writeGo_zero] at h
          cases h
        · obtain ⟨he, hdir, hfree⟩ := ih _ _ _ _ _ h
          exact ⟨he, hdir, hfree⟩

/-- Destructuring of a successful cocofs_copyin into its phases. -/
theorem cocofs_copyin_success_elim {fs : Cocofs} {src : SrcFile} {nm ex : List Nat}
    {ty enc : Nat} {f : Cocofs}
    (h : cocofs_copyin fs src nm ex ty enc = .success f) :
    ¬ src.size > (fs.free_granules * COCOFS_BYTES_PER_GRANULE) % 2 ^ 32 ∧
    ∃ slot gl fsA,
      findFreeSlot fs.directory = some slot ∧
      allocGo (granulesNeeded src.size) fs (COCOFS_NGRANULES / 2) = some (gl, fsA) ∧
      writeGo src gl nm ex ty enc slot (granulesNeeded src.size) 0 src.size fsA =
        .success f := by
  simp only [cocofs_copyin] at h
  split at h
  · cases h
  · rename_i hcap
    refine ⟨hcap, ?_⟩
    cases hslot : findFreeSlot fs.directory with
    | none => simp only [hslot] at h; cases h
    | some slot =>
      simp only [hslot] at h
      cases halloc : allocGo (src.size / COCOFS_BYTES_PER_GRANULE +
          (if src.size % COCOFS_BYTES_PER_GRANULE ≠ 0 then 1 else 0)) fs
          (COCOFS_NGRANULES / 2) with
      | none => simp only [halloc] at h; cases h
      | some p =>
        obtain ⟨gl, fsA⟩ := p
        simp only [halloc] at h
        cases hw : writeGo src gl nm ex ty enc slot (src.size / COCOFS_BYTES_PER_GRANULE +
            (if src.size % COCOFS_BYTES_PER_GRANULE ≠ 0 then 1 else 0)) 0 src.size fsA with
        | success f' =>
          simp only [hw] at h
          injection h with hf
          subst hf
          exact ⟨slot, gl, fsA, rfl, halloc, hw⟩
        | failure e f' => simp only [hw] at h; cases h
        | aborted => simp only [hw] at h; cases h

/-- The free count of a freshly formatted image is 68. -/
theorem freeCount_format : freeCount cocofs_format.granule_map = 68 := by decide

theorem findFreeSlot_format : findFreeSlot cocofs_format.directory = some 0 := rfl

theorem capacity_no_overflow {f : Nat} (hf : f ≤ 68) :
    (f * COCOFS_BYTES_PER_GRANULE) % 2 ^ 32 = f * COCOFS_BYTES_PER_GRANULE := by
  apply Nat.mod_eq_of_lt
  simp only [COCOFS_BYTES_PER_GRANULE_eq, pow32_eq]
  omega

theorem headD_eq_getD {l : List Nat} (h : l ≠ []) (d : Nat) : l.headD d = l.getD 0 d := by
  cases l with
  | nil => exact absurd rfl h
  | cons a t => rfl



/-! The claims. -/

/-- A one-granule Link cycle: granule-map entry 0 points at granule 0. -/
def corruptCycleFs : Cocofs :=
  { cocofs_format with granule_map := updFn cocofs_format.granule_map 0 0 }

/-- A directory entry whose chain starts at granule 0. -/
def corruptCycleDirent : Dirent :=
  { freeDirent with d_first_granule := 0, d_type := 0x01 }

theorem copyoutGo_cycle_spin :
    ∀ fuel acc, copyoutGo corruptCycleFs corruptCycleDirent fuel 0 0 acc = .spin := by
  intro fuel
  induction fuel with
  | zero => intro acc; rfl
  | succ fl ih =>
    intro acc
    have hmap : corruptCycleFs.granule_map 0 = 0 := rfl
    simp only [copyoutGo]
    rw [if_neg (by simp only [COCOFS_NGRANULES_eq]; omega)]
    rw [if_neg (by simp only [COCOFS_NGRANULES_eq]; omega)]
    simp only [hmap]
    rw [if_neg (by
      simp only [Bool.or_eq_true, Bool.not_eq_true', beq_iff_eq]
      push_neg
      exact ⟨by simp [gmap_valid_of_le 0 (by omega)], by simp [GMAP_FREE]⟩)]
    rw [if_neg (by rw [GMAP_IS_LAST_of_lt 0 (by omega)]; simp)]
    exact ih _

/-- C2: the claim says both chain traversals halt within 69 steps with the
overrun reported as a cycle error.  The code intends this - cocofs_copyout
checks loopcnt against COCOFS_NGRANULES - but loopcnt is never incremented,
so on a granule map corrupted into a one-granule Link cycle the copyout
loop never exits: for every fuel amount the embedded loop is still running.
cocofs_stat does halt after 69 steps, but silently: it returns the
accumulated size 69 * 2304 = 158976 with no cycle report.  This is a code
bug (the cycle check in cocofs_copyout is dead code). -/
theorem cocofs_copyout_cycle_spins :
    (∀ fuel, cocofs_copyout corruptCycleFs corruptCycleDirent fuel = .spin) ∧
    cocofs_stat_size corruptCycleFs corruptCycleDirent = 158976 := by
  constructor
  · intro fuel
    exact copyoutGo_cycle_spin fuel []
  · decide

/-- C3: the claim says gmap_entry_is_valid accepts exactly Free (0xff),
Terminal (0xc0-0xc9) and in-range Link values 0-67.  The code's own format
comment says Link values are 0-67, but the predicate tests
v less-or-equal COCOFS_NGRANULES (= 68), an off-by-one: byte 68 is accepted
even though 68 is not a valid granule index.  On every other byte value the
predicate agrees with the claim. -/
theorem gmap_entry_is_valid_off_by_one :
    (gmap_entry_is_valid 68 = true ∧
      ¬ (68 = 0xff ∨ (0xc0 ≤ 68 ∧ 68 ≤ 0xc9) ∨ 68 ≤ 67)) ∧
    (∀ v, v < 256 → v ≠ 68 →
      (gmap_entry_is_valid v = true ↔
        (v = 0xff ∨ (0xc0 ≤ v ∧ v ≤ 0xc9) ∨ v ≤ 67))) := by
  constructor
  · decide
  · decide

/-- The granule map of this state holds a Link from granule 0 to granule 1
and an invalid byte 0xfe at granule 1; slot 0 names a file starting at
granule 0. -/
def rmCorruptFs : Cocofs :=
  { cocofs_format with
      granule_map := updFn (updFn cocofs_format.granule_map 0 1) 1 0xfe
      directory := updDir cocofs_format.directory 0
        { freeDirent with d_first_granule := 0, d_type := 0x01 } }

/-- C4 counterexample: cocofs_rm hits the invalid entry at granule 1 only
after it has already freed granule 0 and incremented the counter, so a
failing remove does not leave the granule map and counter unchanged. -/
theorem cocofs_rm_failure_counterexample :
    (cocofs_rm rmCorruptFs 0).isErr = true ∧
    rmCorruptFs.granule_map 0 = 1 ∧
    (cocofs_rm rmCorruptFs 0).state.granule_map 0 = GMAP_FREE ∧
    (cocofs_rm rmCorruptFs 0).state.free_granules =
      rmCorruptFs.free_granules + 1 := by
  decide

/-- C4 as amended: when cocofs_rm fails on an invalid step it leaves every
directory slot and the data area untouched, but the granules visited before
the invalid step remain freed: the final map is the original with some
Nodup set of previously non-free granules set to Free, and the counter is
incremented exactly once per freed granule (so when the very first visited
granule is invalid, nothing at all has changed). -/
theorem cocofs_rm_failure_partial_free (fs : Cocofs) (slot : Nat)
    (hW : fs.free_granules < 2 ^ 32)
    (h : (cocofs_rm fs slot).isErr = true) :
    (∀ j, (cocofs_rm fs slot).state.directory j = fs.directory j) ∧
    (cocofs_rm fs slot).state.image_data = fs.image_data ∧
    ∃ freed : List Nat, freed.Nodup ∧
      (∀ x ∈ freed, x < 68 ∧ fs.granule_map x ≠ GMAP_FREE) ∧
      (∀ j, (cocofs_rm fs slot).state.granule_map j =
        if j ∈ freed then GMAP_FREE else fs.granule_map j) ∧
      (cocofs_rm fs slot).state.free_granules =
        (fs.free_granules + freed.length) % 2 ^ 32 ∧
      (freed = [] → (cocofs_rm fs slot).state.free_granules = fs.free_granules) := by
  have heq := RmRes_isErr_eq h
  obtain ⟨hdir, himg, freed, hnodup, hin, hmap, hcnt⟩ :=
    rmGo_err (COCOFS_NGRANULES + 1) slot fs (fs.directory slot).d_first_granule _ heq
  refine ⟨hdir, himg, freed, hnodup, hin, hmap, hcnt hW, ?_⟩
  intro hnil
  rw [hcnt hW, hnil]
  simpa using Nat.mod_eq_of_lt hW

theorem cocofs_rm_failure_partial_free_witness :
    rmCorruptFs.free_granules < 2 ^ 32 ∧
    (cocofs_rm rmCorruptFs 0).isErr = true ∧
    ((∀ j, (cocofs_rm rmCorruptFs 0).state.directory j = rmCorruptFs.directory j) ∧
    (cocofs_rm rmCorruptFs 0).state.image_data = rmCorruptFs.image_data ∧
    ∃ freed : List Nat, freed.Nodup ∧
      (∀ x ∈ freed, x < 68 ∧ rmCorruptFs.granule_map x ≠ GMAP_FREE) ∧
      (∀ j, (cocofs_rm rmCorruptFs 0).state.granule_map j =
        if j ∈ freed then GMAP_FREE else rmCorruptFs.granule_map j) ∧
      (cocofs_rm rmCorruptFs 0).state.free_granules =
        (rmCorruptFs.free_granules + freed.length) % 2 ^ 32 ∧
      (freed = [] → (cocofs_rm rmCorruptFs 0).state.free_granules =
        rmCorruptFs.free_granules)) :=
  ⟨by decide, by decide,
    cocofs_rm_failure_partial_free rmCorruptFs 0 (by decide) (by decide)⟩

/-- C9: adding a zero-length source file succeeds and the state is left
untouched (the claimed free slot included): no granule is allocated, no
directory entry is written, the counter and the whole image are unchanged.
The free-slot hypothesis is needed because an add to a full directory fails
with a directory-full error before reaching the content loop. -/
theorem cocofs_copyin_zero_length (fs : Cocofs) (src : SrcFile) (nm ex : List Nat)
    (ty enc : Nat) (hz : src.size = 0)
    (hslot : (findFreeSlot fs.directory).isSome = true) :
    cocofs_copyin fs src nm ex ty enc = .success fs := by
  simp only [cocofs_copyin]
  rw [if_neg (by rw [hz]; omega)]
  cases hs : findFreeSlot fs.directory with
  | none => rw [hs] at hslot; simp at hslot
  | some slot =>
    simp only [hs]
    have hneed : src.size / COCOFS_BYTES_PER_GRANULE +
        (if src.size % COCOFS_BYTES_PER_GRANULE ≠ 0 then 1 else 0) = 0 := by
      rw [hz]
      simp
    rw [hneed]
    simp only [allocGo]
    rw [hz, writeGo_zero]

theorem cocofs_copyin_zero_length_witness :
    (⟨0, []⟩ : SrcFile).size = 0 ∧
    (findFreeSlot cocofs_format.directory).isSome = true ∧
    cocofs_copyin cocofs_format ⟨0, []⟩ [84, 69, 83, 84, 32, 32, 32, 32]
      [68, 65, 84] 1 0 = .success cocofs_format :=
  ⟨rfl, by decide,
    cocofs_copyin_zero_length cocofs_format ⟨0, []⟩ _ _ 1 0 rfl (by decide)⟩

/-- C10: cocofs_lookup_raw skips a slot exactly when its type byte is the
0xff Free sentinel and returns the lowest-indexed remaining slot whose 8
name bytes and 3 extension bytes match.  In particular a slot whose type
byte lies outside both 0x00-0x03 and 0xff (say 0x50) is an eligible match,
even though cocofs_enumerate_directory treats every slot with type byte
above 0x03 as not a file. -/
theorem cocofs_lookup_raw_first_match (d : Nat → Dirent) (name ext : List Nat)
    (i : Nat) :
    (cocofs_lookup_raw d name ext = some i ↔
      (i < COCOFS_DIR_TRACK_NENTRIES ∧
        ((d i).d_type ≠ 0xff ∧ (d i).d_name = name ∧ (d i).d_ext = ext) ∧
        ∀ j, j < i → ¬ ((d j).d_type ≠ 0xff ∧ (d j).d_name = name ∧ (d j).d_ext = ext))) ∧
    (∀ e : Dirent, enumerate_slot_is_file e = true ↔ e.d_type ≤ 0x03) := by
  constructor
  · rw [show cocofs_lookup_raw d name ext =
      lookupGo d name ext COCOFS_DIR_TRACK_NENTRIES 0 from rfl]
    rw [lookupGo_some_iff]
    unfold lookupMatches
    constructor
    · rintro ⟨h1, h2, h3, h4⟩
      exact ⟨by simpa using h2, h3, fun j hj => h4 j (Nat.zero_le _) hj⟩
    · rintro ⟨h1, h2, h3⟩
      exact ⟨Nat.zero_le _, by simpa using h1, h2, fun j _ hj => h3 j hj⟩
  · intro e
    unfold enumerate_slot_is_file
    simp



/-- Characterization of any failing cocofs_copyin: the bad label restores
the 68 granule-map bytes and the counter from the snapshot, and either
leaves the directory alone or resets the claimed (Free-typed) slot to the
all-0xff pattern. -/
theorem cocofs_copyin_failure_elim {fs : Cocofs} {src : SrcFile} {nm ex : List Nat}
    {ty enc : Nat} {e : CopyinErr} {f : Cocofs}
    (h : cocofs_copyin fs src nm ex ty enc = .failure e f) :
    (∀ i, i < 68 → f.granule_map i = fs.granule_map i) ∧
    f.free_granules = fs.free_granules ∧
    (∀ j, f.directory j = fs.directory j ∨
      (f.directory j = freeDirent ∧ (fs.directory j).d_type = 0xff)) := by
  simp only [cocofs_copyin] at h
  split at h
  · cases h
    refine ⟨fun i hi => ?_, rfl, fun j => Or.inl rfl⟩
    show (if i < COCOFS_NGRANULES then fs.granule_map i else fs.granule_map i) =
      fs.granule_map i
    split <;> rfl
  · cases hs : findFreeSlot fs.directory with
    | none =>
      simp only [hs] at h
      cases h
      refine ⟨fun i hi => ?_, rfl, fun j => Or.inl rfl⟩
      show (if i < COCOFS_NGRANULES then fs.granule_map i else fs.granule_map i) =
        fs.granule_map i
      split <;> rfl
    | some slot =>
      simp only [hs] at h
      cases ha : allocGo (src.size / COCOFS_BYTES_PER_GRANULE +
          (if src.size % COCOFS_BYTES_PER_GRANULE ≠ 0 then 1 else 0)) fs
          (COCOFS_NGRANULES / 2) with
      | none => simp only [ha] at h; cases h
      | some p =>
        obtain ⟨gl, fsA⟩ := p
        simp only [ha] at h
        cases hw : writeGo src gl nm ex ty enc slot
            (src.size / COCOFS_BYTES_PER_GRANULE +
              (if src.size % COCOFS_BYTES_PER_GRANULE ≠ 0 then 1 else 0)) 0 src.size fsA with
        | success f' => simp only [hw] at h; cases h
        | aborted => simp only [hw] at h; cases h
        | failure e' fw =>
          simp only [hw] at h
          cases h
          have hwdir : fw.directory = fsA.directory :=
            (writeGo_failure_elim src gl nm ex ty enc slot _ _ _ _ _ _ hw).2.1
          have hAdir : fsA.directory = fs.directory :=
            (allocGo_some_spec _ fs (COCOFS_NGRANULES / 2) gl fsA (by decide) ha).2.2.2.2.1
          have hslotfree : (fs.directory slot).d_type = 0xff :=
            (findFreeSlotGo_some COCOFS_DIR_TRACK_NENTRIES 0 slot hs).1
          refine ⟨fun i hi => ?_, rfl, fun j => ?_⟩
          · show (if i < COCOFS_NGRANULES then fs.granule_map i else _) = fs.granule_map i
            rw [if_pos (by simpa [COCOFS_NGRANULES_eq] using hi)]
          · by_cases hj : j = slot
            · subst hj
              refine Or.inr ⟨?_, hslotfree⟩
              show updDir fw.directory j freeDirent j = freeDirent
              exact updDir_same _ _ _
            · refine Or.inl ?_
              show updDir fw.directory slot freeDirent j = fs.directory j
              rw [updDir_ne _ _ hj, hwdir, hAdir]

/-- C1 as amended: any failed add (capacity error, directory full, or a
short read of the source) restores the free-granule counter and all 68
granule-map bytes to their pre-attempt values, and every directory slot is
either byte-for-byte unchanged or is the claimed slot - a slot whose type
byte was already the 0xff Free sentinel - reset to the all-0xff Free
pattern.  The original claim fails only in that last detail: the rollback
memsets the claimed slot to all 0xff bytes, so a free slot whose other 31
bytes were not already 0xff is not restored byte for byte (see the
counterexample). -/
theorem cocofs_copyin_failure_rollback (fs : Cocofs) (src : SrcFile)
    (nm ex : List Nat) (ty enc : Nat)
    (h : (cocofs_copyin fs src nm ex ty enc).isFailure = true) :
    (∀ i, i < 68 →
      (cocofs_copyin fs src nm ex ty enc).state.granule_map i = fs.granule_map i) ∧
    (cocofs_copyin fs src nm ex ty enc).state.free_granules = fs.free_granules ∧
    (∀ j, (cocofs_copyin fs src nm ex ty enc).state.directory j = fs.directory j ∨
      ((cocofs_copyin fs src nm ex ty enc).state.directory j = freeDirent ∧
        (fs.directory j).d_type = 0xff)) := by
  obtain ⟨e, heq⟩ := CopyinRes_isFailure_eq h
  exact cocofs_copyin_failure_elim heq

/-- A state whose directory slot 0 is Free (type byte 0xff) but whose name
bytes are not all 0xff, as can occur in a loaded image. -/
def c1Fs : Cocofs :=
  { cocofs_format with
      directory := updDir cocofs_format.directory 0
        { freeDirent with d_name := [65, 255, 255, 255, 255, 255, 255, 255] } }

/-- C1 counterexample: an add whose source read fails (the source claims 1
byte but delivers none) rolls back by memsetting the claimed slot to all
0xff, so the slot is not byte-for-byte identical to its pre-attempt
content: its first name byte was 65. -/
theorem cocofs_copyin_failure_slot_counterexample :
    (cocofs_copyin c1Fs ⟨1, []⟩ [84, 69, 83, 84, 32, 32, 32, 32] [68, 65, 84]
      1 0).isFailure = true ∧
    (cocofs_copyin c1Fs ⟨1, []⟩ [84, 69, 83, 84, 32, 32, 32, 32] [68, 65, 84]
      1 0).state.directory 0 ≠ c1Fs.directory 0 := by
  decide

theorem cocofs_copyin_failure_rollback_witness :
    (cocofs_copyin c1Fs ⟨1, []⟩ [84, 69, 83, 84, 32, 32, 32, 32] [68, 65, 84]
      1 0).isFailure = true ∧
    ((∀ i, i < 68 →
      (cocofs_copyin c1Fs ⟨1, []⟩ [84, 69, 83, 84, 32, 32, 32, 32] [68, 65, 84]
        1 0).state.granule_map i = c1Fs.granule_map i) ∧
    (cocofs_copyin c1Fs ⟨1, []⟩ [84, 69, 83, 84, 32, 32, 32, 32] [68, 65, 84]
      1 0).state.free_granules = c1Fs.free_granules ∧
    (∀ j, (cocofs_copyin c1Fs ⟨1, []⟩ [84, 69, 83, 84, 32, 32, 32, 32] [68, 65, 84]
      1 0).state.directory j = c1Fs.directory j ∨
      ((cocofs_copyin c1Fs ⟨1, []⟩ [84, 69, 83, 84, 32, 32, 32, 32] [68, 65, 84]
        1 0).state.directory j = freeDirent ∧
        (c1Fs.directory j).d_type = 0xff))) :=
  ⟨by decide,
    cocofs_copyin_failure_rollback c1Fs ⟨1, []⟩ _ _ 1 0 (by decide)⟩

/-- C6: whenever the granule map holds at least one Free entry, the
cocofs_galloc scan started at any index below 68 finds a Free granule
within its 69 probes (so the abort after the loop is unreachable), marks
it GMAP_ALLOCATED and decrements the free counter by one (an unsigned int
decrement, equal to plain subtraction whenever the counter is nonzero);
and the allocation loop of cocofs_copyin - granules_needed such calls -
succeeds whenever the map holds at least granules_needed Free entries,
which is what the step-1 capacity check guarantees when the counter
matches the map. -/
theorem cocofs_galloc_succeeds_when_free (fs : Cocofs) (last n : Nat)
    (hlast : last < 68) :
    ((∃ i, i < 68 ∧ fs.granule_map i = GMAP_FREE) →
      ∃ g fs', cocofs_galloc fs last = some (g, fs') ∧ g < 68 ∧
        fs.granule_map g = GMAP_FREE ∧
        fs'.granule_map g = GMAP_ALLOCATED ∧
        (∀ j, j ≠ g → fs'.granule_map j = fs.granule_map j) ∧
        fs'.directory = fs.directory ∧ fs'.image_data = fs.image_data ∧
        fs'.free_granules = (fs.free_granules + (2 ^ 32 - 1)) % 2 ^ 32 ∧
        (1 ≤ fs.free_granules → fs.free_granules < 2 ^ 32 →
          fs'.free_granules = fs.free_granules - 1)) ∧
    (n ≤ freeCount fs.granule_map → (allocGo n fs last).isSome = true) := by
  constructor
  · intro hex
    have hsome := gallocGo_of_exists_free hlast hex
    cases hg : gallocGo fs.granule_map (COCOFS_NGRANULES + 1) last with
    | none => rw [hg] at hsome; simp at hsome
    | some g =>
      obtain ⟨hg68, hgfree⟩ := gallocGo_some _ last g hlast hg
      refine ⟨g,
        { fs with granule_map := updFn fs.granule_map g GMAP_ALLOCATED
                  free_granules := (fs.free_granules + (2 ^ 32 - 1)) % 2 ^ 32 },
        ?_, hg68, hgfree, updFn_same _ _ _, fun j hj => updFn_ne _ _ hj, rfl, rfl,
        rfl, ?_⟩
      · unfold cocofs_galloc
        rw [hg]
      · intro h1 h2
        show (fs.free_granules + (2 ^ 32 - 1)) % 2 ^ 32 = fs.free_granules - 1
        rw [pow32_eq] at h2 ⊢
        omega
  · intro hcount
    exact allocGo_succeeds n fs last hlast hcount

theorem cocofs_galloc_succeeds_when_free_witness :
    (34 : Nat) < 68 ∧
    (((∃ i, i < 68 ∧ cocofs_format.granule_map i = GMAP_FREE) →
      ∃ g fs', cocofs_galloc cocofs_format 34 = some (g, fs') ∧ g < 68 ∧
        cocofs_format.granule_map g = GMAP_FREE ∧
        fs'.granule_map g = GMAP_ALLOCATED ∧
        (∀ j, j ≠ g → fs'.granule_map j = cocofs_format.granule_map j) ∧
        fs'.directory = cocofs_format.directory ∧
        fs'.image_data = cocofs_format.image_data ∧
        fs'.free_granules = (cocofs_format.free_granules + (2 ^ 32 - 1)) % 2 ^ 32 ∧
        (1 ≤ cocofs_format.free_granules → cocofs_format.free_granules < 2 ^ 32 →
          fs'.free_granules = cocofs_format.free_granules - 1)) ∧
    (68 ≤ freeCount cocofs_format.granule_map →
      (allocGo 68 cocofs_format 34).isSome = true)) :=
  ⟨by decide, cocofs_galloc_succeeds_when_free cocofs_format 34 68 (by decide)⟩

/-- C7: with the free-granule counter at its honest value (at most the 68
granules that exist, so the 32-bit multiplication cannot wrap), an add
fails with the capacity (ENOSPC) error exactly when the source length
exceeds free_granules * 2304 bytes, equivalently exactly when the required
granule count ceil(length / 2304) exceeds the counter; and a capacity
failure leaves the whole state - granule map, directory, data and counter -
pointwise unchanged. -/
theorem cocofs_copyin_capacity_iff (fs : Cocofs) (src : SrcFile) (nm ex : List Nat)
    (ty enc : Nat) (hf : fs.free_granules ≤ 68) :
    ((cocofs_copyin fs src nm ex ty enc).isNoSpace = true ↔
      src.size > fs.free_granules * COCOFS_BYTES_PER_GRANULE) ∧
    (src.size > fs.free_granules * COCOFS_BYTES_PER_GRANULE ↔
      (src.size + (COCOFS_BYTES_PER_GRANULE - 1)) / COCOFS_BYTES_PER_GRANULE >
        fs.free_granules) ∧
    ((cocofs_copyin fs src nm ex ty enc).isNoSpace = true →
      (∀ i, (cocofs_copyin fs src nm ex ty enc).state.granule_map i =
        fs.granule_map i) ∧
      (∀ j, (cocofs_copyin fs src nm ex ty enc).state.directory j =
        fs.directory j) ∧
      (cocofs_copyin fs src nm ex ty enc).state.image_data = fs.image_data ∧
      (cocofs_copyin fs src nm ex ty enc).state.free_granules =
        fs.free_granules) := by
  have hmod := capacity_no_overflow hf
  have hcases : (cocofs_copyin fs src nm ex ty enc).isNoSpace = true ↔
      src.size > (fs.free_granules * COCOFS_BYTES_PER_GRANULE) % 2 ^ 32 := by
    simp only [cocofs_copyin]
    split
    · rename_i hcap
      simp only [CopyinRes.isNoSpace]
      exact iff_of_true trivial hcap
    · rename_i hcap
      apply iff_of_false ?_ hcap
      cases hs : findFreeSlot fs.directory with
      | none => simp [hs, CopyinRes.isNoSpace]
      | some slot =>
        simp only [hs]
        cases ha : allocGo (src.size / COCOFS_BYTES_PER_GRANULE +
            (if src.size % COCOFS_BYTES_PER_GRANULE ≠ 0 then 1 else 0)) fs
            (COCOFS_NGRANULES / 2) with
        | none => simp [ha, CopyinRes.isNoSpace]
        | some p =>
          obtain ⟨gl, fsA⟩ := p
          simp only [ha]
          cases hw : writeGo src gl nm ex ty enc slot
              (src.size / COCOFS_BYTES_PER_GRANULE +
                (if src.size % COCOFS_BYTES_PER_GRANULE ≠ 0 then 1 else 0))
              0 src.size fsA with
          | success f => simp [hw, CopyinRes.isNoSpace]
          | aborted => simp [hw, CopyinRes.isNoSpace]
          | failure e f =>
            have he := (writeGo_failure_elim src gl nm ex ty enc slot _ _ _ _ _ _ hw).1
            subst he
            simp [hw, CopyinRes.isNoSpace]
  rw [hmod] at hcases
  refine ⟨hcases, ?_, ?_⟩
  · simp only [COCOFS_BYTES_PER_GRANULE_eq]
    omega
  · intro hx
    have hcap : src.size > (fs.free_granules * COCOFS_BYTES_PER_GRANULE) % 2 ^ 32 := by
      rw [hmod]
      exact hcases.mp hx
    have hres : cocofs_copyin fs src nm ex ty enc =
        .failure .noSpace (copyinBad fs fs.granule_map fs.free_granules none) := by
      simp only [cocofs_copyin]
      rw [if_pos hcap]
    rw [hres]
    refine ⟨fun i => ?_, fun j => rfl, rfl, rfl⟩
    show (if i < COCOFS_NGRANULES then fs.granule_map i else fs.granule_map i) =
      fs.granule_map i
    split <;> rfl

theorem cocofs_copyin_capacity_iff_witness :
    cocofs_format.free_granules ≤ 68 ∧
    (((cocofs_copyin cocofs_format ⟨156673, []⟩ [84, 69, 83, 84, 32, 32, 32, 32]
        [68, 65, 84] 1 0).isNoSpace = true ↔
      (⟨156673, []⟩ : SrcFile).size >
        cocofs_format.free_granules * COCOFS_BYTES_PER_GRANULE) ∧
    ((⟨156673, []⟩ : SrcFile).size >
        cocofs_format.free_granules * COCOFS_BYTES_PER_GRANULE ↔
      ((⟨156673, []⟩ : SrcFile).size + (COCOFS_BYTES_PER_GRANULE - 1)) /
          COCOFS_BYTES_PER_GRANULE > cocofs_format.free_granules) ∧
    ((cocofs_copyin cocofs_format ⟨156673, []⟩ [84, 69, 83, 84, 32, 32, 32, 32]
        [68, 65, 84] 1 0).isNoSpace = true →
      (∀ i, (cocofs_copyin cocofs_format ⟨156673, []⟩
        [84, 69, 83, 84, 32, 32, 32, 32] [68, 65, 84] 1 0).state.granule_map i =
        cocofs_format.granule_map i) ∧
      (∀ j, (cocofs_copyin cocofs_format ⟨156673, []⟩
        [84, 69, 83, 84, 32, 32, 32, 32] [68, 65, 84] 1 0).state.directory j =
        cocofs_format.directory j) ∧
      (cocofs_copyin cocofs_format ⟨156673, []⟩ [84, 69, 83, 84, 32, 32, 32, 32]
        [68, 65, 84] 1 0).state.image_data = cocofs_format.image_data ∧
      (cocofs_copyin cocofs_format ⟨156673, []⟩ [84, 69, 83, 84, 32, 32, 32, 32]
        [68, 65, 84] 1 0).state.free_granules = cocofs_format.free_granules)) :=
  ⟨by decide,
    cocofs_copyin_capacity_iff cocofs_format ⟨156673, []⟩ _ _ 1 0 (by decide)⟩



/-- C5: starting from a freshly formatted image, adding a file of any
length L with 1 <= L <= 68 * 2304 and then extracting it through the
resulting directory entry (slot 0, the first free slot) reproduces exactly
the original bytes.  The copyout fuel 69 bounds the loop iterations
actually taken; the chain has at most 68 granules. -/
theorem cocofs_copyin_copyout_roundtrip (content nm ex : List Nat) (ty enc : Nat)
    (h1 : 1 ≤ content.length) (h2 : content.length ≤ 68 * 2304) :
    (cocofs_copyin cocofs_format ⟨content.length, content⟩ nm ex ty enc).isSuccess
      = true ∧
    cocofs_copyout
      (cocofs_copyin cocofs_format ⟨content.length, content⟩ nm ex ty enc).state
      ((cocofs_copyin cocofs_format ⟨content.length, content⟩ nm ex ty
        enc).state.directory 0)
      (COCOFS_NGRANULES + 1) = .ok content := by
  have hkeq : granulesNeeded content.length =
      (content.length + 2303) / 2304 := by
    rw [granulesNeeded_eq]
    simp [COCOFS_BYTES_PER_GRANULE_eq]
  have hk1 : 1 ≤ granulesNeeded content.length := by omega
  have hk68 : granulesNeeded content.length ≤ 68 := by omega
  have hcap : ¬ ((⟨content.length, content⟩ : SrcFile).size >
      (cocofs_format.free_granules * COCOFS_BYTES_PER_GRANULE) % 2 ^ 32) := by
    show ¬ (content.length > (COCOFS_NGRANULES * COCOFS_BYTES_PER_GRANULE) % 2 ^ 32)
    rw [capacity_no_overflow (by simp [COCOFS_NGRANULES_eq])]
    simp only [COCOFS_NGRANULES_eq, COCOFS_BYTES_PER_GRANULE_eq]
    omega
  have hsome := allocGo_succeeds (granulesNeeded content.length) cocofs_format
    (COCOFS_NGRANULES / 2) (by decide) (by rw [freeCount_format]; omega)
  cases hp : allocGo (granulesNeeded content.length) cocofs_format
      (COCOFS_NGRANULES / 2) with
  | none => rw [hp] at hsome; simp at hsome
  | some p =>
  obtain ⟨gl, fsA⟩ := p
  obtain ⟨hglen, hnodup, hmem, hmapA, hdirA, himgA, hcntA⟩ :=
    allocGo_some_spec (granulesNeeded content.length) cocofs_format
      (COCOFS_NGRANULES / 2) gl fsA (by decide) hp
  obtain ⟨f, hw⟩ := writeGo_succeeds ⟨content.length, content⟩ gl nm ex ty enc 0
    (granulesNeeded content.length) 0 content.length fsA (by simp) (Nat.le_refl _)
    (by rw [hkeq]; simp only [COCOFS_BYTES_PER_GRANULE_eq]; omega)
  have hrun : cocofs_copyin cocofs_format ⟨content.length, content⟩ nm ex ty enc =
      .success f := by
    simp only [cocofs_copyin]
    rw [if_neg hcap]
    rw [show ((⟨content.length, content⟩ : SrcFile).size / COCOFS_BYTES_PER_GRANULE +
      (if (⟨content.length, content⟩ : SrcFile).size % COCOFS_BYTES_PER_GRANULE ≠ 0
        then 1 else 0)) = granulesNeeded content.length from rfl]
    simp only [show findFreeSlot cocofs_format.directory = some 0 from rfl, hp, hw]
  obtain ⟨c1, c2, c3, c4, c5, c6, c7, c8⟩ :=
    writeGo_success_spec ⟨content.length, content⟩ gl nm ex ty enc 0 hnodup
      (granulesNeeded content.length) 0 content.length fsA f hw (by simp) h1
      (by rw [hglen, hkeq]; simp only [COCOFS_BYTES_PER_GRANULE_eq]; omega)
  have hglen' : gl.length = granulesNeeded content.length := hglen
  have hrr : 1 ≤ content.length - (gl.length - 1) * COCOFS_BYTES_PER_GRANULE ∧
      content.length - (gl.length - 1) * COCOFS_BYTES_PER_GRANULE ≤
        COCOFS_BYTES_PER_GRANULE := by
    rw [hglen', hkeq]
    simp only [COCOFS_BYTES_PER_GRANULE_eq]
    omega
  have hdirent : f.directory 0 =
      copyinEntry (fsA.directory 0) nm ex ty enc (gl.getD 0 0xff)
        (lastbytesOf (content.length -
          (gl.length - 1) * COCOFS_BYTES_PER_GRANULE)) := c5
  have hfirst : (f.directory 0).d_first_granule = gl.getD 0 0xff := by
    rw [hdirent]
    rfl
  have hlb : cocofs_dir_lastbytes (f.directory 0).d_last_bytes0
      (f.directory 0).d_last_bytes1 =
      lastbytesOf (content.length - (gl.length - 1) * COCOFS_BYTES_PER_GRANULE) := by
    rw [hdirent]
    show cocofs_dir_lastbytes
      ((lastbytesOf (content.length - (gl.length - 1) * COCOFS_BYTES_PER_GRANULE)
        >>> 8) % 256)
      ((lastbytesOf (content.length - (gl.length - 1) * COCOFS_BYTES_PER_GRANULE))
        % 256) = _
    apply dir_lastbytes_roundtrip
    have := (lastbytesOf_range hrr.1).2
    simpa [COCOFS_BYTES_PER_SEC_eq] using this
  have hne : gl ≠ [] := by
    intro hnil
    rw [hnil] at hglen'
    simp at hglen'
    omega
  have hchain := copyoutGo_chain f (f.directory 0) content gl 0
    (content.length - (gl.length - 1) * COCOFS_BYTES_PER_GRANULE) [] 
    (COCOFS_NGRANULES + 1) hne
    (by simp only [COCOFS_NGRANULES_eq]; omega)
    (fun x hx => (hmem x hx).1)
    (fun i hi => c3 i (Nat.zero_le _) hi)
    c4
    hrr.1 hrr.2 hlb
    (fun i j hi hj => by
      have hj' : j < min (content.length - i * COCOFS_BYTES_PER_GRANULE)
          COCOFS_BYTES_PER_GRANULE := by
        have hx := hj
        rw [hglen', hkeq] at hx
        simp only [COCOFS_BYTES_PER_GRANULE_eq] at hx ⊢
        have hi' : i < (content.length + 2303) / 2304 := by
          rw [hglen', hkeq] at hi
          exact hi
        omega
      have := c7 i j (Nat.zero_le _) hi hj'
      simpa using this)
    (by
      rw [hglen', hkeq]
      simp only [COCOFS_BYTES_PER_GRANULE_eq]
      omega)
  have hT : (gl.length - 1) * COCOFS_BYTES_PER_GRANULE +
      (content.length - (gl.length - 1) * COCOFS_BYTES_PER_GRANULE) =
      content.length := by
    rw [hglen', hkeq]
    simp only [COCOFS_BYTES_PER_GRANULE_eq]
    omega
  constructor
  · rw [hrun]
    rfl
  · rw [hrun]
    show cocofs_copyout f (f.directory 0) (COCOFS_NGRANULES + 1) = .ok content
    unfold cocofs_copyout
    rw [hfirst]
    rw [hchain, hT]
    simp

theorem cocofs_copyin_copyout_roundtrip_witness :
    1 ≤ ([7, 11, 13] : List Nat).length ∧ ([7, 11, 13] : List Nat).length ≤ 68 * 2304 ∧
    ((cocofs_copyin cocofs_format ⟨([7, 11, 13] : List Nat).length, [7, 11, 13]⟩
      [84, 69, 83, 84, 32, 32, 32, 32] [68, 65, 84] 1 0).isSuccess = true ∧
    cocofs_copyout
      (cocofs_copyin cocofs_format ⟨([7, 11, 13] : List Nat).length, [7, 11, 13]⟩
        [84, 69, 83, 84, 32, 32, 32, 32] [68, 65, 84] 1 0).state
      ((cocofs_copyin cocofs_format ⟨([7, 11, 13] : List Nat).length, [7, 11, 13]⟩
        [84, 69, 83, 84, 32, 32, 32, 32] [68, 65, 84] 1 0).state.directory 0)
      (COCOFS_NGRANULES + 1) = .ok [7, 11, 13]) :=
  ⟨by decide, by decide,
    cocofs_copyin_copyout_roundtrip [7, 11, 13] _ _ 1 0 (by decide) (by decide)⟩



/-- C8: from any state whose counter is honest enough to be at most 68, a
successful add of a file of L bytes (requiring k = ceil(L / 2304) granules)
leaves the counter at exactly free - k, and removing that same file through
its directory slot succeeds and restores the counter to exactly its prior
value. -/
theorem cocofs_copyin_rm_accounting (fs : Cocofs) (src : SrcFile)
    (nm ex : List Nat) (ty enc slot : Nat)
    (hf : fs.free_granules ≤ 68)
    (hL : 1 ≤ src.size)
    (hslot : findFreeSlot fs.directory = some slot)
    (hs : (cocofs_copyin fs src nm ex ty enc).isSuccess = true) :
    (src.size + (COCOFS_BYTES_PER_GRANULE - 1)) / COCOFS_BYTES_PER_GRANULE ≤
      fs.free_granules ∧
    (cocofs_copyin fs src nm ex ty enc).state.free_granules =
      fs.free_granules -
        (src.size + (COCOFS_BYTES_PER_GRANULE - 1)) / COCOFS_BYTES_PER_GRANULE ∧
    (cocofs_rm (cocofs_copyin fs src nm ex ty enc).state slot).isOk = true ∧
    (cocofs_rm (cocofs_copyin fs src nm ex ty enc).state slot).state.free_granules =
      fs.free_granules := by
  have heq := CopyinRes_isSuccess_eq hs
  obtain ⟨hcap, slot', gl, fsA, hslot', halloc, hw⟩ := cocofs_copyin_success_elim heq
  rw [hslot] at hslot'
  injection hslot' with hslot''
  subst hslot''
  have hmod := capacity_no_overflow hf
  rw [hmod] at hcap
  push_neg at hcap
  have hkceil : granulesNeeded src.size =
      (src.size + (COCOFS_BYTES_PER_GRANULE - 1)) / COCOFS_BYTES_PER_GRANULE :=
    granulesNeeded_eq _
  have hkf : granulesNeeded src.size ≤ fs.free_granules := by
    rw [hkceil]
    simp only [COCOFS_BYTES_PER_GRANULE_eq] at hcap ⊢
    omega
  have hk1 : 1 ≤ granulesNeeded src.size := by
    rw [hkceil]
    simp only [COCOFS_BYTES_PER_GRANULE_eq]
    omega
  obtain ⟨hglen, hnodup, hmem, hmapA, hdirA, himgA, hcntA⟩ :=
    allocGo_some_spec _ fs (COCOFS_NGRANULES / 2) gl fsA (by decide) halloc
  have hfsA : fsA.free_granules = fs.free_granules - granulesNeeded src.size :=
    hcntA (by rw [pow32_eq]; omega) hkf
  obtain ⟨c1, c2, c3, c4, c5, c6, c7, c8⟩ :=
    writeGo_success_spec src gl nm ex ty enc slot hnodup _ 0 src.size fsA _ hw
      (by simp) hL
      (by rw [hglen, hkceil]; simp only [COCOFS_BYTES_PER_GRANULE_eq]; omega)
  have hfree : (cocofs_copyin fs src nm ex ty enc).state.free_granules =
      fs.free_granules - granulesNeeded src.size := by
    rw [c1, hfsA]
  have hrr : 1 ≤ src.size - (gl.length - 1) * COCOFS_BYTES_PER_GRANULE ∧
      src.size - (gl.length - 1) * COCOFS_BYTES_PER_GRANULE ≤
        COCOFS_BYTES_PER_GRANULE := by
    rw [hglen, hkceil]
    simp only [COCOFS_BYTES_PER_GRANULE_eq]
    omega
  obtain ⟨hn1, hn9⟩ := nsecOf_range hrr.1 hrr.2
  have hne : gl ≠ [] := by
    intro hnil
    rw [hnil] at hglen
    simp at hglen
    omega
  have hlen_pos : 0 < gl.length := List.length_pos.mpr hne
  have hlink0 : ∀ i, i + 1 < gl.length →
      (cocofs_copyin fs src nm ex ty enc).state.granule_map (gl.getD i 0) =
        gl.getD (i + 1) 0 := by
    intro i hi
    rw [getD_default_irrel (show i < gl.length by omega) 0 0xff]
    rw [getD_default_irrel (show i + 1 < gl.length from hi) 0 0xff]
    exact c3 i (Nat.zero_le _) hi
  have hterm0 : (cocofs_copyin fs src nm ex ty enc).state.granule_map
      (gl.getD (gl.length - 1) 0) = GMAP_LAST |||
        nsecOf (src.size - (gl.length - 1) * COCOFS_BYTES_PER_GRANULE) := by
    rw [getD_default_irrel (show gl.length - 1 < gl.length by omega) 0 0xff]
    exact c4
  obtain ⟨f2, hrm, hcnt2, hmap2, hdir2, hdirslot2, himg2⟩ :=
    rmGo_chain gl slot (COCOFS_NGRANULES + 1)
      (cocofs_copyin fs src nm ex ty enc).state
      (nsecOf (src.size - (gl.length - 1) * COCOFS_BYTES_PER_GRANULE))
      hne
      (by simp only [COCOFS_NGRANULES_eq]; rw [hglen]; omega)
      hnodup (fun x hx => (hmem x hx).1) hlink0 hterm0 hn1 hn9
      (by rw [hfree, pow32_eq, hglen]; omega)
  have hfirst : ((cocofs_copyin fs src nm ex ty enc).state.directory
      slot).d_first_granule = gl.getD 0 0xff := by
    rw [c5]
    rfl
  have hrm_eq : cocofs_rm (cocofs_copyin fs src nm ex ty enc).state slot =
      .done true f2 := by
    unfold cocofs_rm
    rw [hfirst]
    rw [getD_default_irrel hlen_pos 0xff 0]
    rw [← headD_eq_getD hne 0]
    exact hrm
  refine ⟨by rw [← hkceil]; exact hkf, by rw [hfree, hkceil], ?_, ?_⟩
  · rw [hrm_eq]
    rfl
  · rw [hrm_eq]
    show f2.free_granules = fs.free_granules
    rw [hcnt2, hfree, hglen]
    omega

theorem cocofs_copyin_rm_accounting_witness :
    cocofs_format.free_granules ≤ 68 ∧
    1 ≤ (⟨1, [7]⟩ : SrcFile).size ∧
    findFreeSlot cocofs_format.directory = some 0 ∧
    (cocofs_copyin cocofs_format ⟨1, [7]⟩ [84, 69, 83, 84, 32, 32, 32, 32]
      [68, 65, 84] 1 0).isSuccess = true ∧
    (((⟨1, [7]⟩ : SrcFile).size + (COCOFS_BYTES_PER_GRANULE - 1)) /
        COCOFS_BYTES_PER_GRANULE ≤ cocofs_format.free_granules ∧
      (cocofs_copyin cocofs_format ⟨1, [7]⟩ [84, 69, 83, 84, 32, 32, 32, 32]
        [68, 65, 84] 1 0).state.free_granules =
        cocofs_format.free_granules -
          ((⟨1, [7]⟩ : SrcFile).size + (COCOFS_BYTES_PER_GRANULE - 1)) /
            COCOFS_BYTES_PER_GRANULE ∧
      (cocofs_rm (cocofs_copyin cocofs_format ⟨1, [7]⟩
        [84, 69, 83, 84, 32, 32, 32, 32] [68, 65, 84] 1 0).state 0).isOk = true ∧
      (cocofs_rm (cocofs_copyin cocofs_format ⟨1, [7]⟩
        [84, 69, 83, 84, 32, 32, 32, 32] [68, 65, 84] 1 0).state
          0).state.free_granules = cocofs_format.free_granules) :=
  ⟨by decide, by decide, rfl, by decide,
    cocofs_copyin_rm_accounting cocofs_format ⟨1, [7]⟩ _ _ 1 0 0
      (by decide) (by decide) rfl (by decide)⟩


end CocofsModel
